import Mathlib

/-!
Verification of the weapp-axios request-dispatch library.

We shallowly embed the JavaScript source (`src/unnamed/part_001`, the
current full implementation; `src/weapp-axios.js` is an older iteration of
the same file) into Lean.  JavaScript values are modelled by `JSVal`;
plain objects and arrays additionally carry an allocation identity
(`oid`), so that sharing/aliasing facts ("merge copies arrays", "merge
never mutates its inputs") are expressible in a pure setting: a function
that only ever writes to objects whose identities are freshly allocated
cannot have mutated a pre-existing object.  Numbers are modelled as
integers (the library only manipulates status codes, indices and lengths).
-/

namespace WeappAxios

/-- Model of a JavaScript value.  `obj`/`arr` carry an allocation identity
`oid` used to express object identity (aliasing); `fn` is an opaque
function token identified by `fid`.  `str` models primitive strings
(String wrapper objects are not modelled). -/
inductive JSVal where
  | undef : JSVal
  | null : JSVal
  | bool (b : Bool) : JSVal
  | num (n : Int) : JSVal
  | str (s : String) : JSVal
  | fn (fid : Nat) : JSVal
  | arr (oid : Nat) (elems : List JSVal) : JSVal
  | obj (oid : Nat) (fields : List (String × JSVal)) : JSVal

namespace JSVal

mutual

/-- Erase allocation identities (set them all to 0); two values that are
`strip`-equal are indistinguishable up to object identity, which is the
notion of deep equality used by the spec's "equal" claims. -/
def strip : JSVal → JSVal
  | .arr _ es => .arr 0 (stripList es)
  | .obj _ fs => .obj 0 (stripFields fs)
  | v => v

/-- `strip` mapped over a list of values. -/
def stripList : List JSVal → List JSVal
  | [] => []
  | v :: vs => strip v :: stripList vs

/-- `strip` mapped over the values of a field list. -/
def stripFields : List (String × JSVal) → List (String × JSVal)
  | [] => []
  | (k, v) :: fs => (k, strip v) :: stripFields fs

end

example : strip (.obj 5 [("a", .arr 3 [.num 1, .str "x"])]) =
    .obj 0 [("a", .arr 0 [.num 1, .str "x"])] := rfl

/-- JavaScript truthiness: `undefined`, `null`, `false`, `0` and `''` are
falsy; every object, array and function is truthy. -/
def truthy : JSVal → Bool
  | .undef => false
  | .null => false
  | .bool b => b
  | .num n => n != 0
  | .str s => s ≠ ""
  | .fn _ => true
  | .arr _ _ => true
  | .obj _ _ => true

end JSVal

open JSVal

/-- Parse a nonempty all-digit character list as a natural number
(kernel-reducible replacement for `String.toNat?`). -/
def natOfChars (cs : List Char) : Option Nat :=
  if cs.isEmpty || !cs.all Char.isDigit then none
  else some (cs.foldl (fun n c => n * 10 + (c.toNat - 48)) 0)

/-- `String.toNat?` over the model's strings. -/
def strToNat? (s : String) : Option Nat :=
  natOfChars s.data

/-- Decimal digits of a natural number, most significant first (the first
argument is fuel, always called with `n + 1`). -/
def natDigitsAux : Nat → Nat → List Char
  | 0, _ => []
  | fuel + 1, n =>
      if n < 10 then [Char.ofNat (48 + n)]
      else natDigitsAux fuel (n / 10) ++ [Char.ofNat (48 + n % 10)]

/-- Decimal rendering of a natural number. -/
def natToDecimal (n : Nat) : String :=
  String.mk (natDigitsAux (n + 1) n)

/-- Decimal rendering of an integer (JavaScript number-to-string for the
integral numbers in the model). -/
def intToDecimal (i : Int) : String :=
  if i < 0 then "-" ++ natToDecimal i.natAbs else natToDecimal i.natAbs

/-- `utils.isPlainObject` (source line 165): in this model every `obj` is a
plain object (`getTag` yields `[object Object]` exactly for them, and their
prototype is `Object.prototype`); class instances with other prototypes are
not modelled. -/
def isPlainObject : JSVal → Bool
  | .obj _ _ => true
  | _ => false

/-- `utils.isString` (source line 184), restricted to primitive strings
(String wrapper objects are outside the model). -/
def isString : JSVal → Bool
  | .str _ => true
  | _ => false

/-- `utils.isFunction` (source line 195): `typeof value === 'function'`. -/
def isFunction : JSVal → Bool
  | .fn _ => true
  | _ => false

/-- `Array.isArray`. -/
def isArray : JSVal → Bool
  | .arr _ _ => true
  | _ => false

/-- The strict-equality test `value === null`. -/
def isNull : JSVal → Bool
  | .null => true
  | _ => false

/-- `Object.prototype.hasOwnProperty.call(value, key)` for values on which
it does not throw (`ToObject` succeeds).  Arrays own `length` and their
index keys; strings own `length` and their index keys; functions own
`length` and `name`; number and boolean wrappers own nothing relevant. -/
def hasOwnProp : JSVal → String → Bool
  | .obj _ fs, k => fs.any (fun p => p.1 == k)
  | .arr _ es, k => k = "length" || (match strToNat? k with
      | some i => i < es.length
      | none => false)
  | .str s, k => k = "length" || (match strToNat? k with
      | some i => i < s.length
      | none => false)
  | .fn _, k => k = "length" || k = "name"
  | _, _ => false

/-- Errors thrown by the JavaScript runtime itself in the modelled code:
the only one reachable is the `TypeError` raised by
`hasOwnProperty.call(undefined, ...)` (ToObject on `undefined`). -/
inductive JsErr where
  | typeError : JsErr
  deriving DecidableEq

/-- `utils.isArrayLike` (source line 149):
`value !== null && typeof value !== 'function' && hasOwnProperty.call(value, 'length')`.
On `undefined` the `hasOwnProperty.call` throws a `TypeError` (ToObject
fails), which the source does not guard against. -/
def isArrayLike : JSVal → Except JsErr Bool
  | .null => .ok false
  | .fn _ => .ok false
  | .undef => .error .typeError
  | v => .ok (hasOwnProp v "length")

/-- Property read `value[key]`, totalised with `undefined` for the cases
the library exercises (reads on `null`/`undefined` are never reached:
every call site guards with a truthiness or `typeof` test first). -/
def getProp : JSVal → String → JSVal
  | .obj _ fs, k => ((fs.lookup k).getD .undef)
  | .arr _ es, k =>
      if k = "length" then .num es.length
      else match strToNat? k with
        | some i => es.getD i .undef
        | none => .undef
  | .str s, k =>
      if k = "length" then .num s.length
      else match strToNat? k with
        | some i => if i < s.length then .str (String.mk [s.data.getD i ' ']) else .undef
        | none => .undef
  | _, _ => .undef

mutual

/-- JavaScript `ToString` as used by the `+ ''` coercions and string
concatenations in the source.  Arrays stringify as their elements joined
with `,` (with `null`/`undefined` elements rendered empty); plain objects
as `[object Object]`.  Function source text is implementation-defined in
JavaScript and is modelled by a fixed placeholder. -/
def jsToString : JSVal → String
  | .undef => "undefined"
  | .null => "null"
  | .bool b => if b then "true" else "false"
  | .num n => intToDecimal n
  | .str s => s
  | .fn _ => "function () [native code]"
  | .obj _ _ => "[object Object]"
  | .arr _ es => String.intercalate "," (jsToStringElems es)

/-- Array element stringification for `Array.prototype.toString`:
`null` and `undefined` elements render as the empty string. -/
def jsToStringElems : List JSVal → List String
  | [] => []
  | .undef :: es => "" :: jsToStringElems es
  | .null :: es => "" :: jsToStringElems es
  | v :: es => jsToString v :: jsToStringElems es

end

/-- A JavaScript-style numeric string parse for `ToNumber` on strings,
restricted to the integer fragment the model needs: optional sign and
decimal digits, surrounding whitespace allowed, empty (or all-whitespace)
string is `0`.  Fractional, exponent and hex literals are outside the
model and are treated as `NaN` (`none`). -/
def parseIntStr (s : String) : Option Int :=
  let t := ((s.data.dropWhile Char.isWhitespace).reverse.dropWhile Char.isWhitespace).reverse
  match t with
  | [] => some 0
  | c :: rest =>
      if c = '-' then (natOfChars rest).map (fun n => -(n : Int))
      else if c = '+' then (natOfChars rest).map (fun n => (n : Int))
      else (natOfChars t).map (fun n => (n : Int))

/-- JavaScript `ToNumber`, `none` standing for `NaN`.  It is used by the
model only for the `++index < length` comparison in `utils.each`'s
array-like loop. -/
def toNumberOpt : JSVal → Option Int
  | .undef => none
  | .null => some 0
  | .bool b => some (if b then 1 else 0)
  | .num n => some n
  | .str s => parseIntStr s
  | .fn _ => none
  | .obj _ _ => none
  | .arr _ es => parseIntStr (String.intercalate "," (jsToStringElems es))

/-- Number of iterations performed by `utils.each`'s
`while (++index < length)` loop: indices `0, 1, ...` are visited as long
as `index < ToNumber(length)`; a `NaN` or non-positive length yields no
iterations. -/
def eachLoopCount (lengthVal : JSVal) : Nat :=
  match toNumberOpt lengthVal with
  | some n => n.toNat
  | none => 0

/-- The element `iterable[index]` read by `utils.each`'s array-like loop
(the numeric index is converted to a string key for objects, as property
access does in JavaScript). -/
def eachIndexGet (collection : JSVal) (i : Nat) : JSVal :=
  getProp collection (natToDecimal i)

/-- The sequence of `(key, value)` pairs visited by `utils.each`
(source line 248) on a collection, in visit order.  `null` collections are
returned unvisited; array-like collections (any value owning a `length`
property, which includes plain objects that happen to have a `length`
key) are visited by index `0 .. length-1`; everything else goes through
`utils.forOwn`, which visits `Object.keys` — the own fields for a plain
object and nothing for primitives and functions.  `undefined` collections
make `utils.isArrayLike` throw a `TypeError`.  Numeric index keys are
stringified, as JavaScript property keys are. -/
def eachSeq (collection : JSVal) : Except JsErr (List (String × JSVal)) :=
  if isNull collection then .ok []
  else match isArrayLike collection with
    | .error e => .error e
    | .ok true =>
        let n := eachLoopCount (getProp collection "length")
        .ok ((List.range n).map (fun i => (natToDecimal i, eachIndexGet collection i)))
    | .ok false =>
        match collection with
        | .obj _ fs => .ok fs
        | _ => .ok []

/-- JavaScript property write `target[key] = value` on an object's field
list: an existing key is updated in place (preserving its position in the
key order), a new key is appended. -/
def setField (fs : List (String × JSVal)) (k : String) (v : JSVal) :
    List (String × JSVal) :=
  if fs.any (fun p => p.1 == k) then
    fs.map (fun p => if p.1 == k then (k, v) else p)
  else fs ++ [(k, v)]

/-- Errors thrown by the library itself (`throw Error(...)` sites). -/
inductive LibErr where
  /-- `未传入配置对象！` — missing config object. -/
  | nonConfig : LibErr
  /-- `wx.uploadFile 需要传入 name filePath 属性！` -/
  | uploadMissingArgs : LibErr
  /-- `数据解析失败，出现了语法错误！` — JSON body parse failure. -/
  | dataParse : LibErr
  deriving DecidableEq

/-- The four adapters the classifier can select. -/
inductive AdapterKind where
  | uploadFile : AdapterKind
  | downloadFile : AdapterKind
  | connectSocket : AdapterKind
  | request : AdapterKind
  deriving DecidableEq

/-- `getDefaultAdapter` (source lines 757-783): throws on a falsy config;
otherwise picks `wx.uploadFile` when `config.name && config.filePath` are
both truthy, else `wx.downloadFile` when `config.name` is falsy and
`filePath` is an own property (any value), else `wx.connectSocket` when
`protocols` is an own property, else `wx.request`. -/
def getDefaultAdapter (config : JSVal) : Except LibErr AdapterKind :=
  if ¬ truthy config then .error .nonConfig
  else if truthy (getProp config "name") && truthy (getProp config "filePath") then
    .ok .uploadFile
  else if !truthy (getProp config "name") && hasOwnProp config "filePath" then
    .ok .downloadFile
  else if hasOwnProp config "protocols" then
    .ok .connectSocket
  else
    .ok .request

/-- C3: for every config object, adapter selection is pure in the config's
fields, with precedence upload → download → socket → plain request.
"Present" in the upload clause is the source's truthiness test
(`config.name && config.filePath`); the download clause requires `name`
falsy ("absent") and `filePath` an own property regardless of its value;
in particular upload wins over download whenever both `name` and
`filePath` are (truthily) set. -/
theorem getDefaultAdapter_classification (c : JSVal) (hc : isPlainObject c = true) :
    (getDefaultAdapter c = .ok .uploadFile ↔
      truthy (getProp c "name") = true ∧ truthy (getProp c "filePath") = true)
  ∧ (getDefaultAdapter c = .ok .downloadFile ↔
      truthy (getProp c "name") = false ∧ hasOwnProp c "filePath" = true)
  ∧ (getDefaultAdapter c = .ok .connectSocket ↔
      ¬(truthy (getProp c "name") = true ∧ truthy (getProp c "filePath") = true) ∧
      ¬(truthy (getProp c "name") = false ∧ hasOwnProp c "filePath" = true) ∧
      hasOwnProp c "protocols" = true)
  ∧ (getDefaultAdapter c = .ok .request ↔
      ¬(truthy (getProp c "name") = true ∧ truthy (getProp c "filePath") = true) ∧
      ¬(truthy (getProp c "name") = false ∧ hasOwnProp c "filePath" = true) ∧
      hasOwnProp c "protocols" = false) := by
  have htr : truthy c = true := by
    cases c <;> simp_all [isPlainObject, JSVal.truthy]
  by_cases h1 : truthy (getProp c "name") = true <;>
    by_cases h2 : truthy (getProp c "filePath") = true <;>
    by_cases h3 : hasOwnProp c "filePath" = true <;>
    by_cases h4 : hasOwnProp c "protocols" = true <;>
    simp_all [getDefaultAdapter]

/-- `helpers.combineURLs` (source lines 356-363): empty if either input is
falsy; otherwise strips trailing slashes from the first, leading slashes
from the second, and joins with exactly one `/`. -/
def combineURLs (url1 url2 : String) : String :=
  if url1 = "" || url2 = "" then ""
  else String.mk ((url1.data.reverse.dropWhile (fun c => c = '/')).reverse)
       ++ "/" ++ String.mk (url2.data.dropWhile (fun c => c = '/'))

/-- `helpers.buildPathParam` (source lines 376-396): empty when `url` is
falsy; when `params` is a plain object, builds `key=value` pairs for its
non-function fields (the separator before a pair is empty exactly when
the url does not yet contain `=` and the key's index among `Object.keys`
is 0, otherwise `&`), prefixes a `?`, and hands the result to
`combineURLs`; otherwise combines the stringified `params` as a path
segment. -/
def buildPathParam (url params : JSVal) : String :=
  if ¬ truthy url then ""
  else
    let u := jsToString url
    match params with
    | .obj _ fs =>
        let isExist := u.data.any (fun c => c = '=')
        let suffix := fs.enum.foldl (fun acc p =>
          let v := getProp params p.2.1
          if isFunction v then acc
          else acc ++ (if !isExist && p.1 == 0 then "" else "&")
                   ++ p.2.1 ++ "=" ++ jsToString v) ""
        combineURLs u ("?" ++ suffix)
    | _ => combineURLs u (jsToString params)

/-- C7 evaluated at the claim's own example inputs: the code inserts an
extra `/` before the query string (because `combineURLs` always joins
with `/`), contradicting the function's own doc comment
(`/a/b/c + \x7bx:1, y:2, z:3\x7d => /a/b/c?x=1&y=2&z=3`, source lines
372-374) and the claim's expected `'/a/b?x=1&y=2'`; on a url already
containing `=` it emits `/?&` — a second `?` — rather than a plain `&`
separator. -/
theorem buildPathParam_failing_inputs :
    buildPathParam (.str "/a/b") (.obj 7 [("x", .num 1), ("y", .num 2)]) = "/a/b/?x=1&y=2" ∧
    buildPathParam (.str "/a?x=1") (.obj 8 [("y", .num 2)]) = "/a?x=1/?&y=2" := by
  constructor <;> decide

/-! JSON parsing.  `JSON.parse` is a host/runtime primitive, not library
code; it is modelled here by an executable recursive-descent parser over
the fragment the model's values can represent: objects, arrays,
double-quoted strings without escape sequences, integer numbers, `true`,
`false` and `null`.  Any input outside this fragment fails to parse,
standing for a `SyntaxError` (the only error `JSON.parse` throws). -/

/-- JSON insignificant whitespace. -/
def jsonWsChars : List Char → List Char :=
  List.dropWhile (fun c => c = ' ' || c = '\n' || c = '\t' || c = '\r')

/-- The `{` character. -/
def lbraceChar : Char := Char.ofNat 123

/-- The `}` character. -/
def rbraceChar : Char := Char.ofNat 125

/-- The `"` character. -/
def quoteChar : Char := Char.ofNat 34

/-- Parse a JSON string body (after the opening quote) up to the closing
quote; escape sequences are outside the model. -/
def parseJsonStringBody (cs : List Char) : Option (String × List Char) :=
  let chars := cs.takeWhile (fun c => !(c = quoteChar || c = '\\'))
  match cs.drop chars.length with
  | c :: rest => if c = quoteChar then some (String.mk chars, rest) else none
  | [] => none

/-- Parse a JSON integer number (optional minus sign, digits; fractional
and exponent parts are outside the model). -/
def parseJsonNumber (cs : List Char) : Option (JSVal × List Char) :=
  let p := match cs with
    | c :: r => if c = '-' then (true, r) else (false, cs)
    | [] => (false, ([] : List Char))
  let digits := p.2.takeWhile Char.isDigit
  if digits.isEmpty then none
  else
    let rest := p.2.drop digits.length
    let ok : Bool := match rest with
      | c :: _ => !(c = '.' || c = 'e' || c = 'E')
      | [] => true
    if ok then
      let n : Nat := digits.foldl (fun n c => n * 10 + (c.toNat - 48)) 0
      some (.num (if p.1 then -(n : Int) else (n : Int)), rest)
    else none

mutual

/-- Parse one JSON value (fuel-indexed; fuel strictly exceeds nesting
depth for any input when set to the input length plus one). -/
def parseJsonVal : Nat → List Char → Option (JSVal × List Char)
  | 0, _ => none
  | fuel + 1, cs =>
      match jsonWsChars cs with
      | [] => none
      | c :: rest =>
          if c = lbraceChar then
            match jsonWsChars rest with
            | d :: rest2 =>
                if d = rbraceChar then some (.obj 0 [], rest2)
                else parseJsonMembers fuel (d :: rest2) []
            | [] => none
          else if c = '[' then
            match jsonWsChars rest with
            | d :: rest2 =>
                if d = ']' then some (.arr 0 [], rest2)
                else parseJsonElems fuel (d :: rest2) []
            | [] => none
          else if c = quoteChar then
            match parseJsonStringBody rest with
            | some (s, rest2) => some (.str s, rest2)
            | none => none
          else match c :: rest with
            | 't' :: 'r' :: 'u' :: 'e' :: rest2 => some (.bool true, rest2)
            | 'f' :: 'a' :: 'l' :: 's' :: 'e' :: rest2 => some (.bool false, rest2)
            | 'n' :: 'u' :: 'l' :: 'l' :: rest2 => some (.null, rest2)
            | cs2 => parseJsonNumber cs2

/-- Parse the members of a JSON object after `{` (at least one member);
later duplicate keys overwrite earlier ones in place, as property
assignment does. -/
def parseJsonMembers : Nat → List Char → List (String × JSVal) →
    Option (JSVal × List Char)
  | 0, _, _ => none
  | fuel + 1, cs, acc =>
      match jsonWsChars cs with
      | c :: rest =>
          if c = quoteChar then
            match parseJsonStringBody rest with
            | some (k, rest2) =>
                match jsonWsChars rest2 with
                | d :: rest3 =>
                    if d = ':' then
                      match parseJsonVal fuel rest3 with
                      | some (v, rest4) =>
                          match jsonWsChars rest4 with
                          | e :: rest5 =>
                              if e = ',' then parseJsonMembers fuel rest5 (setField acc k v)
                              else if e = rbraceChar then
                                some (.obj 0 (setField acc k v), rest5)
                              else none
                          | [] => none
                      | none => none
                    else none
                | [] => none
            | none => none
          else none
      | [] => none

/-- Parse the elements of a JSON array after `[` (at least one element). -/
def parseJsonElems : Nat → List Char → List JSVal → Option (JSVal × List Char)
  | 0, _, _ => none
  | fuel + 1, cs, acc =>
      match parseJsonVal fuel cs with
      | some (v, rest) =>
          match jsonWsChars rest with
          | e :: rest2 =>
              if e = ',' then parseJsonElems fuel rest2 (acc ++ [v])
              else if e = ']' then some (.arr 0 (acc ++ [v]), rest2)
              else none
          | [] => none
      | none => none

end

/-- `JSON.parse`, modelled on the integer/escape-free JSON fragment;
`none` stands for a thrown `SyntaxError`. -/
def jsonParse (s : String) : Option JSVal :=
  match parseJsonVal (s.data.length + 1) s.data with
  | some (v, rest) => if (jsonWsChars rest).isEmpty then some v else none
  | none => none

example : jsonParse "\x7b\"a\":1\x7d" = some (.obj 0 [("a", .num 1)]) := rfl
example : jsonParse "\x7b\"a\":1" = none := rfl
example : jsonParse "[1,\"x\",null,true]" = some (.arr 0 [.num 1, .str "x", .null, .bool true]) := rfl

/-- The slice of the per-request config consulted by `dispatchRequest`'s
success handler. -/
structure DispatchConfig where
  /-- `config.validateStatus`, a predicate over the numeric status code. -/
  validateStatus : Int → Bool
  /-- `config.forcedJSONParsing`. -/
  forcedJSONParsing : Bool

/-- A host response as seen by `dispatchRequest`'s success handler. -/
structure WxResponse where
  /-- `response.statusCode`. -/
  statusCode : Int
  /-- `response.data`. -/
  data : JSVal

/-- Outcome taxonomy of a dispatched request: library-raised errors
(`dataParse` from the JSON coercion) are distinct by construction from
transport errors (adapter rejections, propagated unchanged). -/
inductive DispatchErr where
  | lib (e : LibErr) : DispatchErr
  | transport (e : JSVal) : DispatchErr

/-- `defaults.validateStatus` (source lines 816-818):
`status >= 200 && status < 300`. -/
def defaultValidateStatus (status : Int) : Bool :=
  200 ≤ status && status < 300

/-- The fulfilled branch `onAdapterResolve` of `dispatchRequest` (source
lines 1210-1237): when `config.validateStatus(response.statusCode)` passes
and `forcedJSONParsing` is set and the body is a string, parse it as JSON;
a `SyntaxError` from the parse is rethrown as the library's data-parse
error; otherwise the response is returned with its data untouched.  The
diagnostic print and best-effort log steps (source lines 1226-1235) only
touch console/storage collaborators, which the spec scopes out as
reliable; they do not alter the settled value and are not modelled. -/
def onAdapterResolve (config : DispatchConfig) (response : WxResponse) :
    Except DispatchErr WxResponse :=
  if config.validateStatus response.statusCode && config.forcedJSONParsing then
    match response.data with
    | .str s =>
        match jsonParse s with
        | some v => .ok ⟨response.statusCode, v⟩
        | none => .error (.lib .dataParse)
    | _ => .ok response
  else .ok response

/-- The settlement of `dispatchRequest`'s adapter promise (source lines
1210-1240): success goes through `onAdapterResolve`, failure propagates
the adapter's rejection unchanged as a transport error
(`onAdapterReject` is `err => Promise.reject(err)`). -/
def dispatchSettle (config : DispatchConfig)
    (adapterResult : Except JSVal WxResponse) : Except DispatchErr WxResponse :=
  match adapterResult with
  | .ok r => onAdapterResolve config r
  | .error e => .error (.transport e)

/-- C6: for every dispatched request whose adapter resolves — (1) when
status validation passes, forced JSON parsing is on and the body is a
string that parses, the settled response carries the parsed value; (2) a
malformed string body settles as the library's data-parsing error, which
(3) is distinct from every transport error; (4) when status validation
fails the body is not auto-parsed; (5) concretely, a string body
`'\x7b"a":1\x7d'` with status 200 under the default `validateStatus`
yields the parsed object. -/
theorem dispatchRequest_json_coercion :
    (∀ (cfg : DispatchConfig) (resp : WxResponse) (s : String) (v : JSVal),
      resp.data = .str s → cfg.validateStatus resp.statusCode = true →
      cfg.forcedJSONParsing = true → jsonParse s = some v →
      dispatchSettle cfg (.ok resp) = .ok ⟨resp.statusCode, v⟩)
  ∧ (∀ (cfg : DispatchConfig) (resp : WxResponse) (s : String),
      resp.data = .str s → cfg.validateStatus resp.statusCode = true →
      cfg.forcedJSONParsing = true → jsonParse s = none →
      dispatchSettle cfg (.ok resp) = .error (.lib .dataParse))
  ∧ (∀ (e : JSVal), DispatchErr.lib .dataParse ≠ .transport e)
  ∧ (∀ (cfg : DispatchConfig) (resp : WxResponse),
      cfg.validateStatus resp.statusCode = false →
      dispatchSettle cfg (.ok resp) = .ok resp)
  ∧ dispatchSettle ⟨defaultValidateStatus, true⟩ (.ok ⟨200, .str "\x7b\"a\":1\x7d"⟩)
      = .ok ⟨200, .obj 0 [("a", .num 1)]⟩ := by
  refine ⟨?_, ?_, ?_, ?_, rfl⟩
  · intro cfg resp s v hdata hvs hf hp
    simp [dispatchSettle, onAdapterResolve, hdata, hvs, hf, hp]
  · intro cfg resp s hdata hvs hf hp
    simp [dispatchSettle, onAdapterResolve, hdata, hvs, hf, hp]
  · intro e h
    exact DispatchErr.noConfusion h
  · intro cfg resp hvs
    simp [dispatchSettle, onAdapterResolve, hvs]

/-- Witness for `dispatchRequest_json_coercion`: the malformed-body clause
applied at a concrete unparsable string body. -/
theorem dispatchRequest_json_coercion_witness :
    dispatchSettle ⟨defaultValidateStatus, true⟩ (.ok ⟨200, .str "not json"⟩)
      = .error (.lib .dataParse) :=
  dispatchRequest_json_coercion.2.1 ⟨defaultValidateStatus, true⟩
    ⟨200, .str "not json"⟩ "not json" rfl rfl rfl rfl

/-! The interceptor pipeline of `Axios.prototype.request` (source lines
1013-1054), modelled over abstract config/response values `V` and thrown
values `E`.  An interceptor registration (`interceptors.*.use`) stores a
`(fulfilled, rejected)` pair; tombstoned (ejected) registrations are
`none`.  Handler invocations are recorded in an event trace so ordering
claims are expressible.  A handler that throws is modelled as returning
`Except.error`. -/

/-- A request-interceptor registration: in the request phase the rejected
handler's return value is discarded (`onRejected(err)`), so its result
type is `Unit`; an `Except.error` result models the handler itself
throwing (which the source does not catch). -/
structure ReqInterceptor (V E : Type) where
  /-- Registration index, used only to identify the handler in traces. -/
  id : Nat
  /-- The fulfilled handler `config => config`. -/
  fulfilled : V → Except E V
  /-- The rejected handler `err => void`. -/
  rejected : E → Except E Unit

/-- A response-interceptor registration, composed via
`promise.then(fulfilled, rejected)`: a rejected handler that returns
normally resolves the next promise in the chain. -/
structure RespInterceptor (V E : Type) where
  /-- Registration index. -/
  id : Nat
  /-- The fulfilled handler. -/
  fulfilled : V → Except E V
  /-- The rejected handler. -/
  rejected : E → Except E V

/-- Trace events of one `request` call: request-interceptor fulfilled and
rejected invocations (the latter carrying the thrown value passed to it),
the `dispatchRequest` invocation carrying the config it receives, and
response-interceptor handler invocations. -/
inductive PipeEv (V E : Type) where
  | reqF (id : Nat) : PipeEv V E
  | reqR (id : Nat) (e : E) : PipeEv V E
  | disp (cfg : V) : PipeEv V E
  | respF (id : Nat) : PipeEv V E
  | respR (id : Nat) : PipeEv V E

/-- Outcome of the synchronous request-interceptor `while` loop. -/
inductive ChainOut (V E : Type) where
  | done (cfg : V) : ChainOut V E
  | thrown (e : E) : ChainOut V E

/-- Result of a `request` call: either a synchronous throw escaping
`request` itself (only possible when a rejected handler throws) or the
returned promise. -/
inductive PipeResult (V E : Type) where
  | syncThrow (e : E) : PipeResult V E
  | promise (p : Except E V) : PipeResult V E

/-- Collection of request interceptors (source lines 1014-1017):
`forEach` walks registrations in order, skipping tombstones, and
`unshift`s each `(fulfilled, rejected)` pair, so the consumed list is the
reverse of registration order with pairs kept together. -/
def collectRequest {V E : Type} (hs : List (Option (ReqInterceptor V E))) :
    List (ReqInterceptor V E) :=
  hs.foldl (fun acc h => match h with | some ic => ic :: acc | none => acc) []

/-- Collection of response interceptors (source lines 1020-1023): pairs
are `push`ed, preserving registration order. -/
def collectResponse {V E : Type} (hs : List (Option (RespInterceptor V E))) :
    List (RespInterceptor V E) :=
  hs.foldl (fun acc h => match h with | some ic => acc ++ [ic] | none => acc) []

/-- The request-interceptor `while` loop (source lines 1028-1038): each
fulfilled handler is applied to the accumulated config; on a throw the
paired rejected handler is invoked with the thrown value and the loop
`break`s — `newConfig` keeps the value from before the failing handler.
A throw from the rejected handler itself escapes uncaught. -/
def runRequestChain {V E : Type} :
    List (ReqInterceptor V E) → V → List (PipeEv V E) × ChainOut V E
  | [], cfg => ([], .done cfg)
  | ic :: rest, cfg =>
      match ic.fulfilled cfg with
      | .ok c' =>
          let r := runRequestChain rest c'
          (.reqF ic.id :: r.1, r.2)
      | .error e =>
          match ic.rejected e with
          | .ok _ => ([.reqF ic.id, .reqR ic.id e], .done cfg)
          | .error e' => ([.reqF ic.id, .reqR ic.id e], .thrown e')

/-- The response-interceptor chain (source lines 1050-1052):
`promise = promise.then(fulfilled, rejected)` in order, so each pair sees
the settled value or error of the previous promise. -/
def runResponseChain {V E : Type} :
    List (RespInterceptor V E) → Except E V → List (PipeEv V E) × Except E V
  | [], p => ([], p)
  | ic :: rest, p =>
      match p with
      | .ok v =>
          let r := runResponseChain rest (ic.fulfilled v)
          (.respF ic.id :: r.1, r.2)
      | .error e =>
          let r := runResponseChain rest (ic.rejected e)
          (.respR ic.id :: r.1, r.2)

/-- The interceptor/dispatch portion of `Axios.prototype.request` (source
lines 1013-1054), after config merging and method normalisation: run the
request chain; on an uncaught rejected-handler throw the call itself
throws; otherwise dispatch (`dispatch cfg = .error e` models
`dispatchRequest` throwing synchronously, which `request` converts to
`Promise.reject(err)` and returns at once — skipping response
interceptors); otherwise chain the response interceptors onto the
adapter promise. -/
def requestPipeline {V E : Type} (reqHs : List (Option (ReqInterceptor V E)))
    (respHs : List (Option (RespInterceptor V E)))
    (dispatch : V → Except E (Except E V)) (cfg : V) :
    List (PipeEv V E) × PipeResult V E :=
  let r := runRequestChain (collectRequest reqHs) cfg
  match r.2 with
  | .thrown e => (r.1, .syncThrow e)
  | .done newConfig =>
      match dispatch newConfig with
      | .error e => (r.1 ++ [.disp newConfig], .promise (.error e))
      | .ok p0 =>
          let s := runResponseChain (collectResponse respHs) p0
          (r.1 ++ .disp newConfig :: s.1, .promise s.2)

/-- Collecting all-live request registrations reverses their order. -/
theorem collectRequest_map_some {V E : Type} (hs : List (ReqInterceptor V E)) :
    collectRequest (hs.map some) = hs.reverse := by
  have h : ∀ (l : List (ReqInterceptor V E)) (acc : List (ReqInterceptor V E)),
      (l.map some).foldl
        (fun acc h => match h with | some ic => ic :: acc | none => acc) acc =
      l.reverse ++ acc := by
    intro l
    induction l with
    | nil => intro acc; simp
    | cons x xs ih => intro acc; simp [ih]
  simpa using h hs []

/-- Collecting all-live response registrations preserves their order. -/
theorem collectResponse_map_some {V E : Type} (hs : List (RespInterceptor V E)) :
    collectResponse (hs.map some) = hs := by
  have h : ∀ (l : List (RespInterceptor V E)) (acc : List (RespInterceptor V E)),
      (l.map some).foldl
        (fun acc h => match h with | some ic => acc ++ [ic] | none => acc) acc =
      acc ++ l := by
    intro l
    induction l with
    | nil => intro acc; simp
    | cons x xs ih => intro acc; simp [ih]
  simpa using h hs []

/-- When every fulfilled handler succeeds, the request chain fires them
all, in list order, and finishes without a throw. -/
theorem runRequestChain_all_ok {V E : Type} (ics : List (ReqInterceptor V E)) :
    ∀ (cfg : V), (∀ ic ∈ ics, ∀ v, ∃ w, ic.fulfilled v = .ok w) →
    ∃ c', runRequestChain ics cfg =
      (ics.map (fun ic => PipeEv.reqF ic.id), .done c') := by
  induction ics with
  | nil => intro cfg _; exact ⟨cfg, rfl⟩
  | cons ic rest ih =>
      intro cfg h
      obtain ⟨w, hw⟩ := h ic (by simp) cfg
      obtain ⟨c', hc⟩ := ih w (fun j hj v => h j (by simp [hj]) v)
      exact ⟨c', by simp [runRequestChain, hw, hc]⟩

/-- When the incoming promise is fulfilled and every response fulfilled
handler succeeds, the response chain fires the fulfilled handlers in
list order. -/
theorem runResponseChain_all_ok {V E : Type} (ics : List (RespInterceptor V E)) :
    ∀ (v : V), (∀ ic ∈ ics, ∀ u, ∃ w, ic.fulfilled u = .ok w) →
    ∃ v', runResponseChain ics (.ok v) =
      (ics.map (fun ic => PipeEv.respF ic.id), .ok v') := by
  induction ics with
  | nil => intro v _; exact ⟨v, rfl⟩
  | cons ic rest ih =>
      intro v h
      obtain ⟨w, hw⟩ := h ic (by simp) v
      obtain ⟨v', hv⟩ := ih w (fun j hj u => h j (by simp [hj]) u)
      exact ⟨v', by simp [runResponseChain, hw, hv]⟩

/-- The response chain is the sequential `.then` fold: each pair is
applied to the settled result of the previous one. -/
theorem runResponseChain_eq_foldl {V E : Type} (ics : List (RespInterceptor V E)) :
    ∀ (p : Except E V),
    (runResponseChain ics p).2 = ics.foldl (fun q ic =>
      match q with | .ok v => ic.fulfilled v | .error e => ic.rejected e) p := by
  induction ics with
  | nil => intro p; rfl
  | cons ic rest ih =>
      intro p
      match p with
      | .ok v => simpa [runResponseChain] using ih (ic.fulfilled v)
      | .error e => simpa [runResponseChain] using ih (ic.rejected e)

/-- C2: with request interceptors registered in list order (`A` then `B`
is the two-element case), a call fires their fulfilled handlers in
reverse registration order, then dispatches, then fires response
fulfilled handlers in registration order; the response chain is the
sequential `.then(fulfilled, rejected)` fold, so each pair sees the
settled value or error of the previous one, and each request interceptor
receives the config produced by the one that ran before it. -/
theorem interceptor_ordering {V E : Type} :
    (∀ (reqHs : List (ReqInterceptor V E)) (respHs : List (RespInterceptor V E))
       (dispatch : V → Except E (Except E V)) (cfg : V),
      (∀ ic ∈ reqHs, ∀ v, ∃ w, ic.fulfilled v = .ok w) →
      (∀ ic ∈ respHs, ∀ v, ∃ w, ic.fulfilled v = .ok w) →
      (∀ v, ∃ r, dispatch v = .ok (.ok r)) →
      ∃ (c : V) (vfinal : V),
        requestPipeline (reqHs.map some) (respHs.map some) dispatch cfg =
          (reqHs.reverse.map (fun ic => PipeEv.reqF ic.id) ++ PipeEv.disp c ::
             respHs.map (fun ic => PipeEv.respF ic.id),
           .promise (.ok vfinal)))
  ∧ (∀ (ics : List (RespInterceptor V E)) (p : Except E V),
      (runResponseChain ics p).2 = ics.foldl (fun q ic =>
        match q with | .ok v => ic.fulfilled v | .error e => ic.rejected e) p)
  ∧ (∀ (ic : ReqInterceptor V E) (rest : List (ReqInterceptor V E)) (cfg c' : V),
      ic.fulfilled cfg = .ok c' →
      runRequestChain (ic :: rest) cfg =
        (PipeEv.reqF ic.id :: (runRequestChain rest c').1,
         (runRequestChain rest c').2)) := by
  refine ⟨?_, runResponseChain_eq_foldl, ?_⟩
  · intro reqHs respHs dispatch cfg hreq hresp hdisp
    obtain ⟨c, hc⟩ := runRequestChain_all_ok (reqHs.reverse) cfg
      (fun ic hic v => hreq ic (by simpa using hic) v)
    obtain ⟨r0, hr0⟩ := hdisp c
    obtain ⟨vf, hvf⟩ := runResponseChain_all_ok respHs r0 hresp
    refine ⟨c, vf, ?_⟩
    simp [requestPipeline, collectRequest_map_some, collectResponse_map_some,
      hc, hr0, hvf]
  · intro ic rest cfg c' h
    simp [runRequestChain, h]

/-- The two request interceptors (`A` with id 0, `B` with id 1) used by
the ordering witness. -/
def witnessReqICs : List (ReqInterceptor Nat Nat) :=
  [⟨0, fun v => .ok (v + 1), fun _ => .ok ()⟩,
   ⟨1, fun v => .ok (v * 2), fun _ => .ok ()⟩]

/-- The two response interceptors (ids 2, 3) used by the ordering witness. -/
def witnessRespICs : List (RespInterceptor Nat Nat) :=
  [⟨2, fun v => .ok (v + 10), fun e => .error e⟩,
   ⟨3, fun v => .ok (v + 100), fun e => .error e⟩]

/-- Witness for `interceptor_ordering`: two request interceptors `A`
(id 0) then `B` (id 1) and two response interceptors (ids 2, 3) over
`V = E = Nat`; the trace shows `B` firing before `A` and the response
handlers firing in registration order. -/
theorem interceptor_ordering_witness :
    ∃ (c vfinal : Nat),
      requestPipeline (witnessReqICs.map some) (witnessRespICs.map some)
        (fun v => .ok (.ok v)) 5 =
      (witnessReqICs.reverse.map (fun ic => PipeEv.reqF ic.id) ++
        PipeEv.disp c :: witnessRespICs.map (fun ic => PipeEv.respF ic.id),
       .promise (.ok vfinal)) :=
  (interceptor_ordering (V := Nat) (E := Nat)).1 witnessReqICs witnessRespICs
    (fun v => .ok (.ok v)) 5
    (by
      intro ic hic v
      simp only [witnessReqICs, List.mem_cons, List.not_mem_nil, or_false] at hic
      rcases hic with rfl | rfl
      · exact ⟨v + 1, rfl⟩
      · exact ⟨v * 2, rfl⟩)
    (by
      intro ic hic v
      simp only [witnessRespICs, List.mem_cons, List.not_mem_nil, or_false] at hic
      rcases hic with rfl | rfl
      · exact ⟨v + 10, rfl⟩
      · exact ⟨v + 100, rfl⟩)
    (fun v => ⟨v, rfl⟩)

/-- Strengthened form of `runRequestChain_all_ok`: a prefix of
always-succeeding interceptors contributes its fulfilled events and
passes its accumulated config on to whatever follows it. -/
theorem runRequestChain_all_ok_append {V E : Type}
    (xs : List (ReqInterceptor V E)) :
    ∀ (cfg : V), (∀ ic ∈ xs, ∀ v, ∃ w, ic.fulfilled v = .ok w) →
    ∃ c', runRequestChain xs cfg =
        (xs.map (fun ic => PipeEv.reqF ic.id), .done c') ∧
      ∀ (ys : List (ReqInterceptor V E)),
        runRequestChain (xs ++ ys) cfg =
          (xs.map (fun ic => PipeEv.reqF ic.id) ++ (runRequestChain ys c').1,
           (runRequestChain ys c').2) := by
  induction xs with
  | nil => intro cfg _; exact ⟨cfg, rfl, fun ys => by simp⟩
  | cons ic rest ih =>
      intro cfg h
      obtain ⟨w, hw⟩ := h ic (by simp) cfg
      obtain ⟨c', hc, happ⟩ := ih w (fun j hj v => h j (by simp [hj]) v)
      refine ⟨c', by simp [runRequestChain, hw, hc], fun ys => ?_⟩
      simp [runRequestChain, hw, happ ys]

/-- C1 (amended): when a request interceptor's fulfilled handler throws,
the paired rejected handler is invoked with the thrown value, no further
request interceptor runs — but the pipeline then proceeds to dispatch
with the config accumulated before the failing interceptor, and the call
settles according to the dispatch result and the response interceptors;
the interceptor's error is neither rethrown (while the rejected handler
returns normally) nor carried into the returned promise. -/
theorem request_interceptor_throw_behavior {V E : Type}
    (reqHs : List (Option (ReqInterceptor V E)))
    (respHs : List (Option (RespInterceptor V E)))
    (dispatch : V → Except E (Except E V)) (cfg : V)
    (pre post : List (ReqInterceptor V E)) (ic : ReqInterceptor V E)
    (hcoll : collectRequest reqHs = pre ++ ic :: post)
    (hpre : ∀ j ∈ pre, ∀ v, ∃ w, j.fulfilled v = .ok w)
    (herr : ∀ v, ∃ e, ic.fulfilled v = .error e)
    (hrej : ∀ e, ic.rejected e = .ok ())
    (hdisp : ∀ v, ∃ p, dispatch v = .ok p) :
    ∃ (c' : V) (e : E) (p0 : Except E V),
      ic.fulfilled c' = .error e ∧
      dispatch c' = .ok p0 ∧
      requestPipeline reqHs respHs dispatch cfg =
        (pre.map (fun j => PipeEv.reqF j.id) ++
           [PipeEv.reqF ic.id, PipeEv.reqR ic.id e] ++
           PipeEv.disp c' :: (runResponseChain (collectResponse respHs) p0).1,
         .promise (runResponseChain (collectResponse respHs) p0).2) := by
  obtain ⟨c', _, happ⟩ := runRequestChain_all_ok_append pre cfg hpre
  obtain ⟨e, he⟩ := herr c'
  obtain ⟨p0, hp0⟩ := hdisp c'
  refine ⟨c', e, p0, he, hp0, ?_⟩
  have hchain : runRequestChain (collectRequest reqHs) cfg =
      (pre.map (fun j => PipeEv.reqF j.id) ++
        [PipeEv.reqF ic.id, PipeEv.reqR ic.id e], .done c') := by
    rw [hcoll, happ (ic :: post)]
    simp [runRequestChain, he, hrej e]
  simp [requestPipeline, hchain, hp0]

/-- C1 counterexample: a single request interceptor whose fulfilled
handler throws `7`; its rejected handler is invoked with `7` and the
chain stops, but the call still dispatches (with the pre-interceptor
config `5`) and settles as a *fulfilled* promise carrying the dispatch
result `99` — not as a rejection carrying the interceptor's error. -/
theorem request_interceptor_throw_counterexample :
    requestPipeline (V := Nat) (E := Nat)
        [some ⟨0, fun _ => .error 7, fun _ => .ok ()⟩] []
        (fun c => .ok (.ok (c + 94))) 5 =
      ([.reqF 0, .reqR 0 7, .disp 5], .promise (.ok 99)) ∧
    (requestPipeline (V := Nat) (E := Nat)
        [some ⟨0, fun _ => .error 7, fun _ => .ok ()⟩] []
        (fun c => .ok (.ok (c + 94))) 5).2 ≠ .promise (.error 7) := by
  constructor
  · rfl
  · intro h
    have h' : (PipeResult.promise (V := Nat) (E := Nat) (.ok 99)) =
        .promise (.error 7) := h
    simp at h'

/-- The throwing request interceptor used by the
`request_interceptor_throw_behavior` witness. -/
def witnessThrowIC : ReqInterceptor Nat Nat :=
  ⟨0, fun _ => .error 7, fun _ => .ok ()⟩

/-- The dispatch function used by the
`request_interceptor_throw_behavior` witness. -/
def witnessThrowDispatch : Nat → Except Nat (Except Nat Nat) :=
  fun c => .ok (.ok (c + 94))

/-- Witness for `request_interceptor_throw_behavior` at the concrete
single-interceptor scenario of the counterexample. -/
theorem request_interceptor_throw_behavior_witness :
    ∃ (c' e : Nat) (p0 : Except Nat Nat),
      witnessThrowIC.fulfilled c' = .error e ∧
      witnessThrowDispatch c' = .ok p0 ∧
      requestPipeline [some witnessThrowIC] [] witnessThrowDispatch 5 =
        (([] : List (ReqInterceptor Nat Nat)).map (fun j => PipeEv.reqF j.id) ++
           [PipeEv.reqF witnessThrowIC.id, PipeEv.reqR witnessThrowIC.id e] ++
           PipeEv.disp c' ::
             (runResponseChain (collectResponse ([] : List (Option (RespInterceptor Nat Nat)))) p0).1,
         .promise (runResponseChain (collectResponse ([] : List (Option (RespInterceptor Nat Nat)))) p0).2) :=
  request_interceptor_throw_behavior [some witnessThrowIC] [] witnessThrowDispatch 5
    [] [] witnessThrowIC rfl (by intro j hj v; cases hj)
    (fun v => ⟨7, rfl⟩) (fun e => rfl) (fun v => ⟨.ok (v + 94), rfl⟩)

/-! `utils.merge` (source lines 218-239).  The JavaScript function
allocates a fresh `result = {}`, then for each source in order runs
`utils.each(source, assignValue)`; `assignValue` deep-merges plain-object
values, shallow-copies (`slice`) array values, and writes everything else
through unchanged.  The model threads an allocation counter `ctr` (fresh
identities are taken from it in order) and a *write log* recording the
identity of every object written to by a `result[key] = ...` assignment;
since the only writes in the source are to `result` objects the model
allocates itself, the log makes "merge never mutates its inputs"
checkable: no logged identity may belong to an input.  Recursion is
fuel-indexed (`.error .fuelOut` on exhaustion) because the JavaScript
recursion is not structural. -/

/-- Failure of a `mergeFuel` run: fuel exhaustion (the JavaScript
recursion would simply continue) or a thrown runtime error. -/
inductive MergeFail where
  | fuelOut : MergeFail
  | thrown (e : JsErr) : MergeFail
  deriving DecidableEq

/-- Result monad for the merge model. -/
abbrev MergeM (α : Type) := Except MergeFail α

/-- Intermediate merge state: allocation counter, the `result` object's
field list, and the write log of object identities assigned into. -/
abbrev MergeSt := Nat × List (String × JSVal) × List Nat

/-- One `assignValue(value, key)` step (source lines 221-231) against the
current result fields: if both the existing `result[key]` and the new
value are plain objects, recursively merge them; else deep-clone a plain
object (`merge({}, value)` — the `{}` literal allocates one identity, the
recursive merge's own result another); else shallow-copy an array with a
fresh identity (`value.slice()`); else write the value through unchanged.
Every branch writes `result[key]`, logging the result object's identity
`rid`. -/
def assignStep (rec : Nat → List JSVal → MergeM (Nat × JSVal × List Nat))
    (rid : Nat) (st : MergeSt) (kv : String × JSVal) : MergeM MergeSt :=
  let rcur := (st.2.1.lookup kv.1).getD .undef
  if isPlainObject rcur && isPlainObject kv.2 then
    match rec st.1 [rcur, kv.2] with
    | .error e => .error e
    | .ok out => .ok (out.1, setField st.2.1 kv.1 out.2.1, st.2.2 ++ out.2.2 ++ [rid])
  else if isPlainObject kv.2 then
    match rec (st.1 + 1) [.obj st.1 [], kv.2] with
    | .error e => .error e
    | .ok out => .ok (out.1, setField st.2.1 kv.1 out.2.1, st.2.2 ++ out.2.2 ++ [rid])
  else
    match kv.2 with
    | .arr _ es => .ok (st.1 + 1, setField st.2.1 kv.1 (.arr st.1 es), st.2.2 ++ [rid])
    | v => .ok (st.1, setField st.2.1 kv.1 v, st.2.2 ++ [rid])

/-- Processing of one source argument: `utils.each(arg, assignValue)` —
compute the visited pair sequence (a thrown `TypeError` from
`isArrayLike` propagates) and fold `assignValue` over it. -/
def eachAssignArg (rec : Nat → List JSVal → MergeM (Nat × JSVal × List Nat))
    (rid : Nat) (st : MergeSt) (a : JSVal) : MergeM MergeSt :=
  match eachSeq a with
  | .error e => .error (.thrown e)
  | .ok pairs => pairs.foldlM (assignStep rec rid) st

/-- The body of one `merge(...)` activation, parameterised by the
recursive call: allocate the fresh `result` identity, fold
`utils.each(arg, assignValue)` over the argument list, and return the
result object. -/
def mergeBody (rec : Nat → List JSVal → MergeM (Nat × JSVal × List Nat))
    (ctr : Nat) (args : List JSVal) : MergeM (Nat × JSVal × List Nat) :=
  match args.foldlM (eachAssignArg rec ctr) ((ctr + 1, [], []) : MergeSt) with
  | .error e => .error e
  | .ok st => .ok (st.1, .obj ctr st.2.1, st.2.2)

/-- `utils.merge`, fuel-indexed: `mergeFuel fuel ctr args` runs the
JavaScript `merge(...args)` with fresh identities allocated from `ctr`
upward, returning the final counter, the result value, and the write
log. -/
def mergeFuel : Nat → Nat → List JSVal → MergeM (Nat × JSVal × List Nat)
  | 0, _, _ => .error .fuelOut
  | fuel + 1, ctr, args => mergeBody (mergeFuel fuel) ctr args

/-- `helpers.mergeConfig` (source lines 334-336): `utils.merge(c1, c2)`. -/
def mergeConfig (fuel ctr : Nat) (config1 config2 : JSVal) :
    MergeM (Nat × JSVal × List Nat) :=
  mergeFuel fuel ctr [config1, config2]

example : mergeFuel 3 10 [.obj 0 [("a", .num 1)], .obj 1 [("b", .arr 2 [.num 7])]] =
    .ok (12, .obj 10 [("a", .num 1), ("b", .arr 11 [.num 7])], [10, 10]) := rfl

mutual

/-- All allocation identities (of objects and arrays) occurring in a
value. -/
def oidList : JSVal → List Nat
  | .arr oid es => oid :: oidListElems es
  | .obj oid fs => oid :: oidListFields fs
  | _ => []

/-- `oidList` over array elements. -/
def oidListElems : List JSVal → List Nat
  | [] => []
  | v :: vs => oidList v ++ oidListElems vs

/-- `oidList` over object fields. -/
def oidListFields : List (String × JSVal) → List Nat
  | [] => []
  | (_, v) :: fs => oidList v ++ oidListFields fs

end

/-- Invariant of a merge recursion: on success the counter strictly
advances, every logged write identity is freshly allocated within the
call (in `[ctr, ctr')`), and the result is an object rooted at the
identity allocated on entry. -/
def MergeRecInv (rec : Nat → List JSVal → MergeM (Nat × JSVal × List Nat)) : Prop :=
  ∀ ctr args ctr' r log, rec ctr args = .ok (ctr', r, log) →
    ctr < ctr' ∧ (∀ id ∈ log, ctr ≤ id ∧ id < ctr') ∧ ∃ fs, r = .obj ctr fs

/-- `assignStep` advances the counter monotonically and only logs the
current result identity or identities allocated during the step. -/
theorem assignStep_inv {rec : Nat → List JSVal → MergeM (Nat × JSVal × List Nat)}
    (hrec : MergeRecInv rec) (rid : Nat) (st st' : MergeSt) (kv : String × JSVal)
    (h : assignStep rec rid st kv = .ok st') :
    st.1 ≤ st'.1 ∧ ∃ d, st'.2.2 = st.2.2 ++ d ∧
      ∀ id ∈ d, id = rid ∨ (st.1 ≤ id ∧ id < st'.1) := by
  unfold assignStep at h
  by_cases h1 : (isPlainObject ((st.2.1.lookup kv.1).getD .undef) && isPlainObject kv.2) = true
  · rw [if_pos h1] at h
    cases hr : rec st.1 [(st.2.1.lookup kv.1).getD .undef, kv.2] with
    | error e => rw [hr] at h; cases h
    | ok out =>
        rw [hr] at h
        obtain ⟨hlt, hlog, -⟩ := hrec _ _ _ _ _ hr
        cases h
        refine ⟨le_of_lt hlt, out.2.2 ++ [rid], by simp, ?_⟩
        intro id hid
        rcases List.mem_append.1 hid with hid | hid
        · exact Or.inr ⟨(hlog id hid).1, (hlog id hid).2⟩
        · simp at hid; exact Or.inl hid
  · rw [if_neg h1] at h
    by_cases h2 : isPlainObject kv.2 = true
    · rw [if_pos h2] at h
      cases hr : rec (st.1 + 1) [.obj st.1 [], kv.2] with
      | error e => rw [hr] at h; cases h
      | ok out =>
          rw [hr] at h
          obtain ⟨hlt, hlog, -⟩ := hrec _ _ _ _ _ hr
          cases h
          refine ⟨by omega, out.2.2 ++ [rid], by simp, ?_⟩
          intro id hid
          rcases List.mem_append.1 hid with hid | hid
          · have := hlog id hid; exact Or.inr ⟨by omega, this.2⟩
          · simp at hid; exact Or.inl hid
    · rw [if_neg h2] at h
      match hv : kv.2 with
      | .arr o es =>
          rw [hv] at h; cases h
          exact ⟨by omega, [rid], by simp, by intro id hid; simp at hid; exact Or.inl hid⟩
      | .undef | .null | .bool _ | .num _ | .str _ | .fn _ | .obj _ _ =>
          rw [hv] at h <;> cases h <;>
          exact ⟨le_refl _, [rid], by simp, by intro id hid; simp at hid; exact Or.inl hid⟩

/-- The `assignValue` fold over one source's visited pairs preserves the
counter/log invariant. -/
theorem foldPairs_inv {rec : Nat → List JSVal → MergeM (Nat × JSVal × List Nat)}
    (hrec : MergeRecInv rec) (rid : Nat) (pairs : List (String × JSVal)) :
    ∀ (st st' : MergeSt), pairs.foldlM (assignStep rec rid) st = .ok st' →
    st.1 ≤ st'.1 ∧ ∃ d, st'.2.2 = st.2.2 ++ d ∧
      ∀ id ∈ d, id = rid ∨ (st.1 ≤ id ∧ id < st'.1) := by
  induction pairs with
  | nil =>
      intro st st' h
      cases h
      exact ⟨le_refl _, [], by simp, by intro id hid; cases hid⟩
  | cons kv rest ih =>
      intro st st' h
      rw [List.foldlM_cons] at h
      cases h1 : assignStep rec rid st kv with
      | error e => rw [h1] at h; cases h
      | ok st1 =>
          rw [h1] at h
          obtain ⟨hle1, d1, hd1, hb1⟩ := assignStep_inv hrec rid st st1 kv h1
          obtain ⟨hle2, d2, hd2, hb2⟩ := ih st1 st' h
          refine ⟨le_trans hle1 hle2, d1 ++ d2, by simp [hd2, hd1], ?_⟩
          intro id hid
          rcases List.mem_append.1 hid with hid | hid
          · rcases hb1 id hid with h | h
            · exact Or.inl h
            · exact Or.inr ⟨h.1, lt_of_lt_of_le h.2 hle2⟩
          · rcases hb2 id hid with h | h
            · exact Or.inl h
            · exact Or.inr ⟨le_trans hle1 h.1, h.2⟩

/-- Monad-bind reduction for `Except` on a success. -/
theorem exceptBind_ok {ε α β : Type} (a : α) (f : α → Except ε β) :
    (Except.ok a >>= f) = f a := rfl

/-- Monad-bind reduction for `Except` on a failure. -/
theorem exceptBind_err {ε α β : Type} (e : ε) (f : α → Except ε β) :
    (Except.error e >>= f : Except ε β) = Except.error e := rfl

/-- The fold of `utils.each(arg, assignValue)` over the argument list
preserves the counter/log invariant. -/
theorem foldArgs_inv {rec : Nat → List JSVal → MergeM (Nat × JSVal × List Nat)}
    (hrec : MergeRecInv rec) (rid : Nat) (args : List JSVal) :
    ∀ (st st' : MergeSt),
    args.foldlM (eachAssignArg rec rid) st = .ok st' →
    st.1 ≤ st'.1 ∧ ∃ d, st'.2.2 = st.2.2 ++ d ∧
      ∀ id ∈ d, id = rid ∨ (st.1 ≤ id ∧ id < st'.1) := by
  induction args with
  | nil =>
      intro st st' h
      cases h
      exact ⟨le_refl _, [], by simp, by intro id hid; cases hid⟩
  | cons a rest ih =>
      intro st st' h
      rw [List.foldlM_cons] at h
      cases h1 : eachAssignArg rec rid st a with
      | error e => rw [h1, exceptBind_err] at h; cases h
      | ok st1 =>
          rw [h1, exceptBind_ok] at h
          have hstep : st.1 ≤ st1.1 ∧ ∃ d, st1.2.2 = st.2.2 ++ d ∧
              ∀ id ∈ d, id = rid ∨ (st.1 ≤ id ∧ id < st1.1) := by
            unfold eachAssignArg at h1
            cases he : eachSeq a with
            | error e => rw [he] at h1; cases h1
            | ok pairs =>
                rw [he] at h1
                exact foldPairs_inv hrec rid pairs st st1 h1
          obtain ⟨hle1, d1, hd1, hb1⟩ := hstep
          obtain ⟨hle2, d2, hd2, hb2⟩ := ih st1 st' h
          refine ⟨le_trans hle1 hle2, d1 ++ d2, by simp [hd2, hd1], ?_⟩
          intro id hid
          rcases List.mem_append.1 hid with hid | hid
          · rcases hb1 id hid with h | h
            · exact Or.inl h
            · exact Or.inr ⟨h.1, lt_of_lt_of_le h.2 hle2⟩
          · rcases hb2 id hid with h | h
            · exact Or.inl h
            · exact Or.inr ⟨le_trans hle1 h.1, h.2⟩

/-- One body activation satisfies the invariant whenever the recursive
calls do. -/
theorem mergeBody_inv {rec : Nat → List JSVal → MergeM (Nat × JSVal × List Nat)}
    (hrec : MergeRecInv rec) : MergeRecInv (mergeBody rec) := by
  intro ctr args ctr' r log h
  unfold mergeBody at h
  cases hf : args.foldlM (eachAssignArg rec ctr) ((ctr + 1, [], []) : MergeSt) with
  | error e => rw [hf] at h; cases h
  | ok st =>
      rw [hf] at h
      obtain ⟨hle, d, hd, hb⟩ := foldArgs_inv hrec ctr args _ _ hf
      cases h
      refine ⟨by omega, ?_, ⟨st.2.1, rfl⟩⟩
      intro id hid
      rw [hd] at hid
      simp only [List.nil_append] at hid
      rcases hb id hid with h | h
      · omega
      · omega

/-- The fuel-indexed merge satisfies the counter/log invariant. -/
theorem mergeFuel_inv (fuel : Nat) : MergeRecInv (mergeFuel fuel) := by
  induction fuel with
  | zero => intro ctr args ctr' r log h; cases h
  | succ f ih => exact mergeBody_inv ih

mutual

/-- Well-formedness of a configuration value for the idempotence claim:
along plain-object nesting, every object has pairwise-distinct keys (as
every real JavaScript object does) and no own `length` key (an own
`length` makes `utils.each` treat the object as array-like and iterate
indices instead of keys).  Array elements are unconstrained: merge only
ever shallow-copies them. -/
def goodCfg : JSVal → Bool
  | .obj _ fs =>
      decide ((fs.map Prod.fst).Nodup) && !(fs.any (fun p => p.1 == "length")) &&
        goodCfgFields fs
  | _ => true

/-- `goodCfg` over the values of a field list. -/
def goodCfgFields : List (String × JSVal) → Bool
  | [] => true
  | (_, v) :: fs => goodCfg v && goodCfgFields fs

end

/-- `lookupF` reads a field of a plain object (`none` elsewhere); used to
state per-key merge results. -/
def lookupF : JSVal → String → Option JSVal
  | .obj _ fs, k => fs.lookup k
  | _, _ => none

/-- `stripFields` distributes over append. -/
theorem stripFields_append (fs gs : List (String × JSVal)) :
    JSVal.stripFields (fs ++ gs) = JSVal.stripFields fs ++ JSVal.stripFields gs := by
  induction fs with
  | nil => rfl
  | cons p rest ih => cases p; simp [JSVal.stripFields, ih]

/-- `strip` does not change keys. -/
theorem stripFields_map_fst (fs : List (String × JSVal)) :
    (JSVal.stripFields fs).map Prod.fst = fs.map Prod.fst := by
  induction fs with
  | nil => rfl
  | cons p rest ih => cases p; simp [JSVal.stripFields, ih]

/-- Looking a key up in stripped fields strips the looked-up value. -/
theorem lookup_stripFields (fs : List (String × JSVal)) (k : String) :
    (JSVal.stripFields fs).lookup k = (fs.lookup k).map JSVal.strip := by
  induction fs with
  | nil => rfl
  | cons p rest ih =>
      cases p with
      | mk k' v =>
          cases hbe : (k == k') <;>
            simp [JSVal.stripFields, List.lookup, hbe, ih]

/-- Overwriting every `k`-keyed entry commutes with `strip`. -/
theorem stripFields_map_overwrite (fs : List (String × JSVal)) (k : String)
    (w : JSVal) :
    JSVal.stripFields (fs.map (fun p => if p.1 == k then (k, w) else p)) =
      (JSVal.stripFields fs).map
        (fun p => if p.1 == k then (k, JSVal.strip w) else p) := by
  induction fs with
  | nil => rfl
  | cons p rest ih =>
      cases p with
      | mk k' v =>
          cases hbe : (k' == k) with
          | true =>
              have h1 : (if ((k', v).1 == k) = true then (k, w) else (k', v)) =
                  (k, w) := by simp [hbe]
              have h2 : (if ((k', JSVal.strip v).1 == k) = true
                    then (k, JSVal.strip w) else (k', JSVal.strip v)) =
                  (k, JSVal.strip w) := by simp [hbe]
              rw [List.map_cons, h1]
              simp only [JSVal.stripFields, List.map_cons, h2, ih]
          | false =>
              have h1 : (if ((k', v).1 == k) = true then (k, w) else (k', v)) =
                  (k', v) := by simp [hbe]
              have h2 : (if ((k', JSVal.strip v).1 == k) = true
                    then (k, JSVal.strip w) else (k', JSVal.strip v)) =
                  (k', JSVal.strip v) := by simp [hbe]
              rw [List.map_cons, h1]
              simp only [JSVal.stripFields, List.map_cons, h2, ih]

/-- `strip` does not change the key-presence test. -/
theorem any_key_stripFields (fs : List (String × JSVal)) (k : String) :
    (JSVal.stripFields fs).any (fun p => p.1 == k) =
      fs.any (fun p => p.1 == k) := by
  induction fs with
  | nil => rfl
  | cons p rest ih =>
      cases p with
      | mk k' v => simp [JSVal.stripFields, ih]

/-- `setField` commutes with `strip`. -/
theorem stripFields_setField (fs : List (String × JSVal)) (k : String) (w : JSVal) :
    JSVal.stripFields (setField fs k w) =
      setField (JSVal.stripFields fs) k (JSVal.strip w) := by
  unfold setField
  rw [any_key_stripFields]
  by_cases h : fs.any (fun p => p.1 == k) = true
  · rw [if_pos h, if_pos h]
    exact stripFields_map_overwrite fs k w
  · rw [if_neg h, if_neg h]
    rw [stripFields_append]
    rfl

/-- An absent key makes the lookup fail. -/
theorem lookup_none_of_not_mem_keys (fs : List (String × JSVal)) (k : String)
    (h : k ∉ fs.map Prod.fst) : fs.lookup k = none := by
  induction fs with
  | nil => rfl
  | cons q rest ih =>
      cases q with
      | mk kq vq =>
          simp only [List.map_cons, List.mem_cons] at h
          push_neg at h
          have hbe : (k == kq) = false := beq_eq_false_iff_ne.2 h.1
          simp [List.lookup, hbe, ih h.2]

/-- A present key makes the `setField` overwrite test true. -/
theorem lookup_some_any (fs : List (String × JSVal)) (k : String) (v : JSVal)
    (h : fs.lookup k = some v) : fs.any (fun p => p.1 == k) = true := by
  induction fs with
  | nil => cases h
  | cons q rest ih =>
      cases q with
      | mk kq vq =>
          cases hbe : (k == kq) with
          | true =>
              have : kq = k := (beq_iff_eq.1 hbe).symm
              simp [this]
          | false =>
              simp only [List.lookup, hbe] at h
              have hbe' : (kq == k) = false := by
                rw [beq_eq_false_iff_ne] at hbe ⊢
                exact fun hc => hbe hc.symm
              simp [hbe', ih h]

/-- A successful lookup exhibits a member of the field list. -/
theorem mem_of_lookup_some (fs : List (String × JSVal)) (k : String) (v : JSVal)
    (h : fs.lookup k = some v) : (k, v) ∈ fs := by
  induction fs with
  | nil => cases h
  | cons q rest ih =>
      cases q with
      | mk kq vq =>
          cases hbe : (k == kq) with
          | true =>
              have hk : k = kq := beq_iff_eq.1 hbe
              simp only [List.lookup, hbe] at h
              injection h with h
              simp [hk, h]
          | false =>
              simp only [List.lookup, hbe] at h
              exact List.mem_cons_of_mem _ (ih h)

/-- A key with no entry can only be `setField`-appended. -/
theorem setField_append_of_lookup_none (fs : List (String × JSVal)) (k : String)
    (v : JSVal) (h : fs.lookup k = none) : setField fs k v = fs ++ [(k, v)] := by
  have hany : fs.any (fun p => p.1 == k) = false := by
    induction fs with
    | nil => rfl
    | cons q rest ih =>
        cases q with
        | mk kq vq =>
            cases hbe : (k == kq) with
            | true => simp [List.lookup, hbe] at h
            | false =>
                simp only [List.lookup, hbe] at h
                have hbe' : (kq == k) = false := by
                  rw [beq_eq_false_iff_ne] at hbe ⊢
                  exact fun hc => hbe hc.symm
                simp [hbe', ih h]
  unfold setField
  rw [hany]
  simp

/-- Overwriting a key that does not occur in a field list changes
nothing. -/
theorem map_overwrite_no_key (fs : List (String × JSVal)) (k : String) (v : JSVal)
    (h : k ∉ fs.map Prod.fst) :
    fs.map (fun p => if p.1 == k then (k, v) else p) = fs := by
  induction fs with
  | nil => rfl
  | cons q rest ih =>
      cases q with
      | mk kq vq =>
          simp only [List.map_cons, List.mem_cons] at h
          push_neg at h
          have hbe : (kq == k) = false :=
            beq_eq_false_iff_ne.2 (fun hc => h.1 hc.symm)
          have h1 : (if ((kq, vq).1 == k) = true then (k, v) else (kq, vq)) =
              (kq, vq) := by simp [hbe]
          simp only [List.map_cons, h1, ih h.2]

/-- Rewriting an existing entry with the value it already holds is a
no-op when keys are pairwise distinct. -/
theorem setField_eq_self (fs : List (String × JSVal)) (k : String) (v : JSVal)
    (hnd : (fs.map Prod.fst).Nodup) (h : fs.lookup k = some v) :
    setField fs k v = fs := by
  unfold setField
  rw [if_pos (lookup_some_any fs k v h)]
  induction fs with
  | nil => cases h
  | cons q rest ih =>
      cases q with
      | mk kq vq =>
          simp only [List.map_cons, List.nodup_cons] at hnd
          cases hbe : (k == kq) with
          | true =>
              have hk : k = kq := beq_iff_eq.1 hbe
              subst hk
              simp only [List.lookup, beq_self_eq_true] at h
              injection h with h
              subst h
              simp only [List.map_cons, beq_self_eq_true, if_true,
                List.cons.injEq, true_and]
              exact map_overwrite_no_key rest k vq hnd.1
          | false =>
              simp only [List.lookup, hbe] at h
              have hbe' : (kq == k) = false := by
                rw [beq_eq_false_iff_ne] at hbe ⊢
                exact fun hc => hbe hc.symm
              simp only [List.map_cons, hbe', Bool.false_eq_true, if_false,
                List.cons.injEq, true_and]
              exact ih hnd.2 h

/-- A value whose strip is an object is an object. -/
theorem obj_of_strip_obj (x : JSVal) (n : Nat) (l : List (String × JSVal))
    (h : JSVal.strip x = .obj n l) : ∃ oid fs, x = .obj oid fs := by
  cases x <;> simp [JSVal.strip] at h ⊢

/-- In a nodup-keyed field list, membership determines the lookup. -/
theorem lookup_of_mem_nodup (fs : List (String × JSVal)) (k : String) (v : JSVal)
    (hmem : (k, v) ∈ fs) (hnd : (fs.map Prod.fst).Nodup) :
    fs.lookup k = some v := by
  induction fs with
  | nil => cases hmem
  | cons q rest ih =>
      cases q with
      | mk kq vq =>
          simp only [List.map_cons, List.nodup_cons] at hnd
          rcases List.mem_cons.1 hmem with h1 | h1
          · injection h1 with h1a h1b
            subst h1a; subst h1b
            simp [List.lookup]
          · have hk : k ≠ kq := by
              intro hc
              subst hc
              exact hnd.1 (List.mem_map_of_mem Prod.fst h1)
            have hbe : (k == kq) = false := beq_eq_false_iff_ne.2 hk
            simp [List.lookup, hbe, ih h1 hnd.2]

/-- Strip-equal field lists yield strip-equal lookups. -/
theorem lookup_strip_transfer (fs1 fs : List (String × JSVal)) (k : String)
    (x : JSVal) (heq : JSVal.stripFields fs1 = JSVal.stripFields fs)
    (h : fs.lookup k = some x) :
    ∃ x', fs1.lookup k = some x' ∧ JSVal.strip x' = JSVal.strip x := by
  have h1 := lookup_stripFields fs1 k
  rw [heq, lookup_stripFields fs k, h] at h1
  cases h2 : fs1.lookup k with
  | none => rw [h2] at h1; cases h1
  | some x' =>
      rw [h2] at h1
      simp at h1
      exact ⟨x', rfl, h1.symm⟩

/-- Appending a differently-keyed entry keeps a lookup failing. -/
theorem lookup_append_singleton_ne (fs : List (String × JSVal)) (k k' : String)
    (w : JSVal) (h : fs.lookup k' = none) (hk : k' ≠ k) :
    (fs ++ [(k, w)]).lookup k' = none := by
  induction fs with
  | nil => simp [List.lookup, beq_eq_false_iff_ne.2 hk]
  | cons q rest ih =>
      cases q with
      | mk kq vq =>
          cases hbe : (k' == kq) with
          | true => simp [List.lookup, hbe] at h
          | false =>
              simp only [List.lookup, hbe] at h
              simp [List.lookup, hbe, ih h]

/-- Values of a `goodCfgFields` list are themselves good. -/
theorem goodCfg_of_mem_goodCfgFields (fs : List (String × JSVal)) (k : String)
    (v : JSVal) (hmem : (k, v) ∈ fs) (h : goodCfgFields fs = true) :
    goodCfg v = true := by
  induction fs with
  | nil => cases hmem
  | cons q rest ih =>
      cases q with
      | mk kq vq =>
          simp only [goodCfgFields, Bool.and_eq_true] at h
          rcases List.mem_cons.1 hmem with h1 | h1
          · injection h1 with h1a h1b
            subst h1b
            exact h.1
          · exact ih h1 h.2

mutual

/-- `goodCfg` only inspects keys and object structure, so it is invariant
under `strip`. -/
theorem goodCfg_strip (v : JSVal) : goodCfg (JSVal.strip v) = goodCfg v := by
  cases v with
  | obj oid fs =>
      simp only [JSVal.strip, goodCfg, stripFields_map_fst, any_key_stripFields,
        goodCfgFields_strip fs]
  | arr oid es => simp [JSVal.strip, goodCfg]
  | undef | null | bool _ | num _ | str _ | fn _ => rfl

/-- Fields version of `goodCfg_strip`. -/
theorem goodCfgFields_strip (fs : List (String × JSVal)) :
    goodCfgFields (JSVal.stripFields fs) = goodCfgFields fs := by
  cases fs with
  | nil => rfl
  | cons p rest =>
      cases p with
      | mk k v =>
          simp only [JSVal.stripFields, goodCfgFields, goodCfg_strip v,
            goodCfgFields_strip rest]

end

/-- `utils.each` on a plain object without an own `length` key visits its
fields in key order. -/
theorem eachSeq_goodObj (oid : Nat) (fs : List (String × JSVal))
    (h : fs.any (fun p => p.1 == "length") = false) :
    eachSeq (.obj oid fs) = .ok fs := by
  unfold eachSeq isArrayLike
  simp [isNull, hasOwnProp, h]

/-- `assignValue` on a non-object non-array value writes it through. -/
theorem assignStep_eq_scalar (rec : Nat → List JSVal → MergeM (Nat × JSVal × List Nat))
    (rid : Nat) (st : MergeSt) (k : String) (val : JSVal)
    (hnp : isPlainObject val = false) (hna : isArray val = false) :
    assignStep rec rid st (k, val) =
      .ok (st.1, setField st.2.1 k val, st.2.2 ++ [rid]) := by
  cases val <;> simp_all [assignStep, isPlainObject, isArray, Bool.and_false]

/-- `assignValue` on an array shallow-copies it with a fresh identity. -/
theorem assignStep_eq_arr (rec : Nat → List JSVal → MergeM (Nat × JSVal × List Nat))
    (rid : Nat) (st : MergeSt) (k : String) (aid : Nat) (es : List JSVal) :
    assignStep rec rid st (k, .arr aid es) =
      .ok (st.1 + 1, setField st.2.1 k (.arr st.1 es), st.2.2 ++ [rid]) := by
  simp [assignStep, isPlainObject, Bool.and_false]

/-- `assignValue` on a plain-object value with no existing entry
deep-clones it through `merge({}, value)`. -/
theorem assignStep_eq_obj_fresh (rec : Nat → List JSVal → MergeM (Nat × JSVal × List Nat))
    (rid : Nat) (st : MergeSt) (k : String) (vid : Nat)
    (vfs : List (String × JSVal)) (hlk : st.2.1.lookup k = none) :
    assignStep rec rid st (k, .obj vid vfs) =
      match rec (st.1 + 1) [.obj st.1 [], .obj vid vfs] with
      | .error e => .error e
      | .ok out => .ok (out.1, setField st.2.1 k out.2.1, st.2.2 ++ out.2.2 ++ [rid]) := by
  simp [assignStep, hlk, isPlainObject]

/-- `assignValue` on a plain-object value whose key already holds a plain
object recursively merges the two. -/
theorem assignStep_eq_obj_update (rec : Nat → List JSVal → MergeM (Nat × JSVal × List Nat))
    (rid : Nat) (st : MergeSt) (k : String) (vid xid : Nat)
    (vfs xfs : List (String × JSVal)) (hlk : st.2.1.lookup k = some (.obj xid xfs)) :
    assignStep rec rid st (k, .obj vid vfs) =
      match rec st.1 [.obj xid xfs, .obj vid vfs] with
      | .error e => .error e
      | .ok out => .ok (out.1, setField st.2.1 k out.2.1, st.2.2 ++ out.2.2 ++ [rid]) := by
  simp [assignStep, hlk, isPlainObject]

/-- Clone specification of a merge recursion: merging a value into a
fresh empty object yields a strip-equal copy. -/
def CloneSpec (rec : Nat → List JSVal → MergeM (Nat × JSVal × List Nat)) : Prop :=
  ∀ (ctr xid : Nat) (v : JSVal) (out : Nat × JSVal × List Nat),
    isPlainObject v = true → goodCfg v = true →
    rec ctr [.obj xid [], v] = .ok out → JSVal.strip out.2.1 = JSVal.strip v

/-- Self-merge specification of a merge recursion: merging a value onto a
strip-equal object is strip-idempotent. -/
def SelfSpec (rec : Nat → List JSVal → MergeM (Nat × JSVal × List Nat)) : Prop :=
  ∀ (ctr : Nat) (x v : JSVal) (out : Nat × JSVal × List Nat),
    isPlainObject x = true → isPlainObject v = true →
    goodCfg v = true → JSVal.strip x = JSVal.strip v →
    rec ctr [x, v] = .ok out → JSVal.strip out.2.1 = JSVal.strip v

/-- An assign step at a previously unused key appends a strip-equal
copy of the value. -/
theorem assignStep_fresh {rec : Nat → List JSVal → MergeM (Nat × JSVal × List Nat)}
    (hC : CloneSpec rec) (rid : Nat) (k : String) (val : JSVal) (st st1 : MergeSt)
    (hlk : st.2.1.lookup k = none) (hgood : goodCfg val = true)
    (h : assignStep rec rid st (k, val) = .ok st1) :
    ∃ w, st1.2.1 = st.2.1 ++ [(k, w)] ∧ JSVal.strip w = JSVal.strip val := by
  cases val with
  | obj vid vfs =>
      rw [assignStep_eq_obj_fresh rec rid st k vid vfs hlk] at h
      cases hr : rec (st.1 + 1) [.obj st.1 [], .obj vid vfs] with
      | error e => rw [hr] at h; cases h
      | ok out =>
          rw [hr] at h
          injection h with h
          subst h
          exact ⟨out.2.1, by simp [setField_append_of_lookup_none _ _ _ hlk],
            hC (st.1 + 1) st.1 (.obj vid vfs) out rfl hgood hr⟩
  | arr aid es =>
      rw [assignStep_eq_arr] at h
      injection h with h
      subst h
      exact ⟨.arr st.1 es, by simp [setField_append_of_lookup_none _ _ _ hlk],
        by simp [JSVal.strip]⟩
  | undef =>
      rw [assignStep_eq_scalar rec rid st k .undef rfl rfl] at h
      injection h with h
      subst h
      exact ⟨.undef, by simp [setField_append_of_lookup_none _ _ _ hlk], rfl⟩
  | null =>
      rw [assignStep_eq_scalar rec rid st k .null rfl rfl] at h
      injection h with h
      subst h
      exact ⟨.null, by simp [setField_append_of_lookup_none _ _ _ hlk], rfl⟩
  | bool b =>
      rw [assignStep_eq_scalar rec rid st k (.bool b) rfl rfl] at h
      injection h with h
      subst h
      exact ⟨.bool b, by simp [setField_append_of_lookup_none _ _ _ hlk], rfl⟩
  | num n =>
      rw [assignStep_eq_scalar rec rid st k (.num n) rfl rfl] at h
      injection h with h
      subst h
      exact ⟨.num n, by simp [setField_append_of_lookup_none _ _ _ hlk], rfl⟩
  | str s =>
      rw [assignStep_eq_scalar rec rid st k (.str s) rfl rfl] at h
      injection h with h
      subst h
      exact ⟨.str s, by simp [setField_append_of_lookup_none _ _ _ hlk], rfl⟩
  | fn f =>
      rw [assignStep_eq_scalar rec rid st k (.fn f) rfl rfl] at h
      injection h with h
      subst h
      exact ⟨.fn f, by simp [setField_append_of_lookup_none _ _ _ hlk], rfl⟩

/-- An assign step at a key that already holds a strip-equal value
rewrites it with another strip-equal value. -/
theorem assignStep_update {rec : Nat → List JSVal → MergeM (Nat × JSVal × List Nat)}
    (hS : SelfSpec rec) (rid : Nat) (k : String) (val x : JSVal) (st st1 : MergeSt)
    (hlk : st.2.1.lookup k = some x) (hx : JSVal.strip x = JSVal.strip val)
    (hgood : goodCfg val = true)
    (h : assignStep rec rid st (k, val) = .ok st1) :
    ∃ w, st1.2.1 = setField st.2.1 k w ∧ JSVal.strip w = JSVal.strip val := by
  cases val with
  | obj vid vfs =>
      obtain ⟨xid, xfs, hxo⟩ :=
        obj_of_strip_obj x 0 (JSVal.stripFields vfs) (by
          rw [hx]; simp [JSVal.strip])
      subst hxo
      rw [assignStep_eq_obj_update rec rid st k vid xid vfs xfs hlk] at h
      cases hr : rec st.1 [.obj xid xfs, .obj vid vfs] with
      | error e => rw [hr] at h; cases h
      | ok out =>
          rw [hr] at h
          injection h with h
          subst h
          exact ⟨out.2.1, rfl,
            hS st.1 (.obj xid xfs) (.obj vid vfs) out rfl rfl hgood hx hr⟩
  | arr aid es =>
      rw [assignStep_eq_arr] at h
      injection h with h
      subst h
      exact ⟨.arr st.1 es, rfl, by simp [JSVal.strip]⟩
  | undef =>
      rw [assignStep_eq_scalar rec rid st k .undef rfl rfl] at h
      injection h with h
      subst h
      exact ⟨.undef, rfl, rfl⟩
  | null =>
      rw [assignStep_eq_scalar rec rid st k .null rfl rfl] at h
      injection h with h
      subst h
      exact ⟨.null, rfl, rfl⟩
  | bool b =>
      rw [assignStep_eq_scalar rec rid st k (.bool b) rfl rfl] at h
      injection h with h
      subst h
      exact ⟨.bool b, rfl, rfl⟩
  | num n =>
      rw [assignStep_eq_scalar rec rid st k (.num n) rfl rfl] at h
      injection h with h
      subst h
      exact ⟨.num n, rfl, rfl⟩
  | str s =>
      rw [assignStep_eq_scalar rec rid st k (.str s) rfl rfl] at h
      injection h with h
      subst h
      exact ⟨.str s, rfl, rfl⟩
  | fn f =>
      rw [assignStep_eq_scalar rec rid st k (.fn f) rfl rfl] at h
      injection h with h
      subst h
      exact ⟨.fn f, rfl, rfl⟩

/-- Folding `assignValue` over fresh nodup keys appends a strip-equal
copy of the visited pairs to the result fields. -/
theorem foldPairs_clone {rec : Nat → List JSVal → MergeM (Nat × JSVal × List Nat)}
    (hC : CloneSpec rec) (rid : Nat) (pairs : List (String × JSVal)) :
    ∀ (st st' : MergeSt),
    (∀ k ∈ pairs.map Prod.fst, st.2.1.lookup k = none) →
    (pairs.map Prod.fst).Nodup →
    goodCfgFields pairs = true →
    pairs.foldlM (assignStep rec rid) st = .ok st' →
    JSVal.stripFields st'.2.1 =
      JSVal.stripFields st.2.1 ++ JSVal.stripFields pairs := by
  induction pairs with
  | nil => intro st st' _ _ _ h; cases h; simp [JSVal.stripFields]
  | cons kv rest ih =>
      obtain ⟨k, val⟩ := kv
      intro st st' hnone hnd hgood h
      simp only [List.map_cons, List.nodup_cons] at hnd
      simp only [goodCfgFields, Bool.and_eq_true] at hgood
      rw [List.foldlM_cons] at h
      cases h1 : assignStep rec rid st (k, val) with
      | error e => rw [h1, exceptBind_err] at h; cases h
      | ok st1 =>
          rw [h1, exceptBind_ok] at h
          have hlk : st.2.1.lookup k = none := hnone k (by simp)
          obtain ⟨w, hw1, hw2⟩ :=
            assignStep_fresh hC rid k val st st1 hlk hgood.1 h1
          have hnone' : ∀ k' ∈ rest.map Prod.fst, st1.2.1.lookup k' = none := by
            intro k' hk'
            rw [hw1]
            exact lookup_append_singleton_ne st.2.1 k k' w
              (hnone k' (by simp [hk'])) (fun hc => hnd.1 (hc ▸ hk'))
          have := ih st1 st' hnone' hnd.2 hgood.2 h
          rw [this, hw1, stripFields_append]
          simp [JSVal.stripFields, hw2]

/-- Folding `assignValue` over pairs whose keys already hold strip-equal
values leaves the result fields strip-unchanged. -/
theorem foldPairs_preserve {rec : Nat → List JSVal → MergeM (Nat × JSVal × List Nat)}
    (hS : SelfSpec rec) (rid : Nat) (pairs : List (String × JSVal)) :
    ∀ (st st' : MergeSt),
    (∀ kv ∈ pairs, ∃ x, st.2.1.lookup kv.1 = some x ∧
      JSVal.strip x = JSVal.strip kv.2) →
    (st.2.1.map Prod.fst).Nodup →
    goodCfgFields pairs = true →
    pairs.foldlM (assignStep rec rid) st = .ok st' →
    JSVal.stripFields st'.2.1 = JSVal.stripFields st.2.1 := by
  induction pairs with
  | nil => intro st st' _ _ _ h; cases h; rfl
  | cons kv rest ih =>
      obtain ⟨k, val⟩ := kv
      intro st st' hlook hnd hgood h
      simp only [goodCfgFields, Bool.and_eq_true] at hgood
      rw [List.foldlM_cons] at h
      cases h1 : assignStep rec rid st (k, val) with
      | error e => rw [h1, exceptBind_err] at h; cases h
      | ok st1 =>
          rw [h1, exceptBind_ok] at h
          obtain ⟨x, hx1, hx2⟩ := hlook (k, val) (by simp)
          obtain ⟨w, hw1, hw2⟩ :=
            assignStep_update hS rid k val x st st1 hx1 hx2 hgood.1 h1
          have hndstrip : ((JSVal.stripFields st.2.1).map Prod.fst).Nodup := by
            rw [stripFields_map_fst]; exact hnd
          have hstrip1 : JSVal.stripFields st1.2.1 = JSVal.stripFields st.2.1 := by
            rw [hw1, stripFields_setField]
            exact setField_eq_self _ _ _ hndstrip (by
              rw [lookup_stripFields, hx1]
              simp [hx2, hw2])
          have hkeys1 : st1.2.1.map Prod.fst = st.2.1.map Prod.fst := by
            rw [← stripFields_map_fst st1.2.1, ← stripFields_map_fst st.2.1, hstrip1]
          have hlook' : ∀ kv ∈ rest, ∃ x', st1.2.1.lookup kv.1 = some x' ∧
              JSVal.strip x' = JSVal.strip kv.2 := by
            intro kv' hkv'
            obtain ⟨y, hy1, hy2⟩ := hlook kv' (by simp [hkv'])
            obtain ⟨y', hy1', hy2'⟩ := lookup_strip_transfer st1.2.1 st.2.1 kv'.1 y hstrip1 hy1
            exact ⟨y', hy1', by rw [hy2', hy2]⟩
          have := ih st1 st' hlook' (by rw [hkeys1]; exact hnd) hgood.2 h
          rw [this, hstrip1]

/-- Decomposition of a two-source merge body into its two `each` passes. -/
theorem mergeBody_two (rec : Nat → List JSVal → MergeM (Nat × JSVal × List Nat))
    (ctr : Nat) (x v : JSVal) (out : Nat × JSVal × List Nat)
    (h : mergeBody rec ctr [x, v] = .ok out) :
    ∃ st1 st2, eachAssignArg rec ctr ((ctr + 1, [], []) : MergeSt) x = .ok st1 ∧
      eachAssignArg rec ctr st1 v = .ok st2 ∧
      out = (st2.1, .obj ctr st2.2.1, st2.2.2) := by
  unfold mergeBody at h
  rw [List.foldlM_cons] at h
  cases h1 : eachAssignArg rec ctr ((ctr + 1, [], []) : MergeSt) x with
  | error e => rw [h1, exceptBind_err] at h; cases h
  | ok st1 =>
      rw [h1, exceptBind_ok, List.foldlM_cons] at h
      cases h2 : eachAssignArg rec ctr st1 v with
      | error e => rw [h2, exceptBind_err] at h; cases h
      | ok st2 =>
          rw [h2, exceptBind_ok] at h
          simp only [List.foldlM_nil] at h
          injection h with h
          exact ⟨st1, st2, rfl, h2, h.symm⟩

/-- The `each` pass over an empty object literal is a no-op. -/
theorem eachAssignArg_empty (rec : Nat → List JSVal → MergeM (Nat × JSVal × List Nat))
    (rid xid : Nat) (st : MergeSt) :
    eachAssignArg rec rid st (.obj xid []) = .ok st := by
  unfold eachAssignArg
  rw [eachSeq_goodObj xid [] rfl]
  rfl

/-- The fuel-indexed merge satisfies both the clone and self-merge
specifications: `merge({}, v)` deep-copies `v` up to identities, and
`merge(x, v)` with `x` a strip-equal object returns a strip-equal
object. -/
theorem merge_strip_spec (fuel : Nat) :
    CloneSpec (mergeFuel fuel) ∧ SelfSpec (mergeFuel fuel) := by
  induction fuel with
  | zero =>
      constructor
      · intro ctr xid v out _ _ h; cases h
      · intro ctr x v out _ _ _ _ h; cases h
  | succ f ih =>
      obtain ⟨ihC, ihS⟩ := ih
      have hclone : CloneSpec (mergeFuel (f + 1)) := by
        intro ctr xid v out hv hgood h
        cases v with
        | obj vid vfs =>
            obtain ⟨st1, st2, h1, h2, hout⟩ :=
              mergeBody_two (mergeFuel f) ctr (.obj xid []) (.obj vid vfs) out h
            rw [eachAssignArg_empty] at h1
            injection h1 with h1
            subst h1
            simp only [goodCfg, Bool.and_eq_true, Bool.not_eq_true',
              decide_eq_true_eq] at hgood
            unfold eachAssignArg at h2
            rw [eachSeq_goodObj vid vfs hgood.1.2] at h2
            have := foldPairs_clone ihC ctr vfs ((ctr + 1, [], []) : MergeSt) st2
              (by intro k _; rfl) hgood.1.1 hgood.2 h2
            rw [hout]
            simp only [JSVal.strip]
            rw [this]
            simp [JSVal.stripFields]
        | undef | null | bool _ | num _ | str _ | fn _ | arr _ _ =>
            simp [isPlainObject] at hv
      have hself : SelfSpec (mergeFuel (f + 1)) := by
        intro ctr x v out hx hv hgood hstrip h
        cases v with
        | obj vid vfs =>
            cases x with
            | obj xid xfs =>
                have hsf : JSVal.stripFields xfs = JSVal.stripFields vfs := by
                  simpa [JSVal.strip] using hstrip
                have hgoodx : goodCfg (JSVal.obj xid xfs) = true := by
                  rw [← goodCfg_strip (JSVal.obj xid xfs), hstrip,
                    goodCfg_strip (JSVal.obj vid vfs)]
                  exact hgood
                simp only [goodCfg, Bool.and_eq_true, Bool.not_eq_true',
                  decide_eq_true_eq] at hgood hgoodx
                obtain ⟨st1, st2, h1, h2, hout⟩ :=
                  mergeBody_two (mergeFuel f) ctr (.obj xid xfs) (.obj vid vfs) out h
                unfold eachAssignArg at h1 h2
                rw [eachSeq_goodObj xid xfs hgoodx.1.2] at h1
                rw [eachSeq_goodObj vid vfs hgood.1.2] at h2
                have hst1 : JSVal.stripFields st1.2.1 = JSVal.stripFields vfs := by
                  have := foldPairs_clone ihC ctr xfs ((ctr + 1, [], []) : MergeSt) st1
                    (by intro k _; rfl) hgoodx.1.1 hgoodx.2 h1
                  rw [this, ← hsf]
                  simp [JSVal.stripFields]
                have hkeys1 : st1.2.1.map Prod.fst = vfs.map Prod.fst := by
                  rw [← stripFields_map_fst st1.2.1, ← stripFields_map_fst vfs, hst1]
                have hst2 : JSVal.stripFields st2.2.1 = JSVal.stripFields st1.2.1 := by
                  refine foldPairs_preserve ihS ctr vfs st1 st2 ?_ ?_ hgood.2 h2
                  · intro kv hkv
                    obtain ⟨k', val'⟩ := kv
                    have hvlk : vfs.lookup k' = some val' :=
                      lookup_of_mem_nodup vfs k' val' hkv hgood.1.1
                    exact lookup_strip_transfer st1.2.1 vfs k' val'
                      (by rw [hst1]) hvlk
                  · rw [hkeys1]; exact hgood.1.1
                rw [hout]
                simp only [JSVal.strip]
                rw [hst2, hst1]
            | undef | null | bool _ | num _ | str _ | fn _ | arr _ _ =>
                simp [isPlainObject] at hx
        | undef | null | bool _ | num _ | str _ | fn _ | arr _ _ =>
            simp [isPlainObject] at hv
      exact ⟨hclone, hself⟩

/-- Every assign step rewrites exactly the visited key. -/
theorem assignStep_fields_shape {rec : Nat → List JSVal → MergeM (Nat × JSVal × List Nat)}
    {rid : Nat} {st st1 : MergeSt} {kv : String × JSVal}
    (h : assignStep rec rid st kv = .ok st1) :
    ∃ w, st1.2.1 = setField st.2.1 kv.1 w := by
  unfold assignStep at h
  by_cases h1 : (isPlainObject ((st.2.1.lookup kv.1).getD .undef) &&
      isPlainObject kv.2) = true
  · rw [if_pos h1] at h
    cases hr : rec st.1 [(st.2.1.lookup kv.1).getD .undef, kv.2] with
    | error e => rw [hr] at h; cases h
    | ok out => rw [hr] at h; injection h with h; exact ⟨out.2.1, by rw [← h]⟩
  · rw [if_neg h1] at h
    by_cases h2 : isPlainObject kv.2 = true
    · rw [if_pos h2] at h
      cases hr : rec (st.1 + 1) [.obj st.1 [], kv.2] with
      | error e => rw [hr] at h; cases h
      | ok out => rw [hr] at h; injection h with h; exact ⟨out.2.1, by rw [← h]⟩
    · rw [if_neg h2] at h
      match hv : kv.2 with
      | .arr o es =>
          rw [hv] at h; injection h with h; exact ⟨.arr st.1 es, by rw [← h]⟩
      | .undef => rw [hv] at h; injection h with h; exact ⟨.undef, by rw [← h]⟩
      | .null => rw [hv] at h; injection h with h; exact ⟨.null, by rw [← h]⟩
      | .bool b => rw [hv] at h; injection h with h; exact ⟨.bool b, by rw [← h]⟩
      | .num n => rw [hv] at h; injection h with h; exact ⟨.num n, by rw [← h]⟩
      | .str s => rw [hv] at h; injection h with h; exact ⟨.str s, by rw [← h]⟩
      | .fn f => rw [hv] at h; injection h with h; exact ⟨.fn f, by rw [← h]⟩
      | .obj o fs => rw [hv] at h; injection h with h; exact ⟨.obj o fs, by rw [← h]⟩

/-- Overwriting a different key does not change a lookup (map form). -/
theorem lookup_map_overwrite_ne (fs : List (String × JSVal)) (k1 : String)
    (w : JSVal) (k : String) (hk : k ≠ k1) :
    (fs.map (fun p => if p.1 == k1 then (k1, w) else p)).lookup k = fs.lookup k := by
  induction fs with
  | nil => rfl
  | cons q rest ih =>
      cases q with
      | mk kq vq =>
          cases hbe : (kq == k1) with
          | true =>
              have hkq : kq = k1 := beq_iff_eq.1 hbe
              have hne : (k == k1) = false := beq_eq_false_iff_ne.2 hk
              have hne' : (k == kq) = false := by rw [hkq]; exact hne
              have h1 : (if ((kq, vq).1 == k1) = true then (k1, w) else (kq, vq)) =
                  (k1, w) := by simp [hbe]
              rw [List.map_cons, h1]
              simp only [List.lookup, hne, hne']
              exact ih
          | false =>
              have h1 : (if ((kq, vq).1 == k1) = true then (k1, w) else (kq, vq)) =
                  (kq, vq) := by simp [hbe]
              rw [List.map_cons, h1]
              cases hbk : (k == kq) with
              | true => simp only [List.lookup, hbk]
              | false =>
                  simp only [List.lookup, hbk]
                  exact ih

/-- Appending a differently-keyed entry does not change a lookup. -/
theorem lookup_append_singleton_ne2 (fs : List (String × JSVal)) (k1 : String)
    (w : JSVal) (k : String) (hk : k ≠ k1) :
    (fs ++ [(k1, w)]).lookup k = fs.lookup k := by
  induction fs with
  | nil => simp [List.lookup, beq_eq_false_iff_ne.2 hk]
  | cons q rest ih =>
      cases q with
      | mk kq vq =>
          cases hbe : (k == kq) with
          | true => simp [List.lookup, hbe]
          | false => simp [List.lookup, hbe, ih]

/-- `setField` at a different key does not change a lookup. -/
theorem lookup_setField_ne (fs : List (String × JSVal)) (k1 : String) (w : JSVal)
    (k : String) (hk : k ≠ k1) :
    (setField fs k1 w).lookup k = fs.lookup k := by
  unfold setField
  by_cases h : fs.any (fun p => p.1 == k1) = true
  · rw [if_pos h]; exact lookup_map_overwrite_ne fs k1 w k hk
  · rw [if_neg h]; exact lookup_append_singleton_ne2 fs k1 w k hk

/-- A key present in a field list looks up to something. -/
theorem lookup_isSome_of_mem_keys (fs : List (String × JSVal)) (k : String)
    (h : k ∈ fs.map Prod.fst) : ∃ v, fs.lookup k = some v := by
  induction fs with
  | nil => cases h
  | cons q rest ih =>
      cases q with
      | mk kq vq =>
          by_cases hk : k = kq
          · subst hk
            exact ⟨vq, by simp [List.lookup]⟩
          · have hbe : (k == kq) = false := beq_eq_false_iff_ne.2 hk
            have h' : k ∈ rest.map Prod.fst := by
              simpa [List.map_cons, List.mem_cons, hk] using h
            obtain ⟨v, hv⟩ := ih h'
            exact ⟨v, by simp [List.lookup, hbe, hv]⟩

/-- When a key is absent on the left, lookup skips to the right of an
append. -/
theorem lookup_append_right_of_none (fs gs : List (String × JSVal)) (k : String)
    (h : fs.lookup k = none) : (fs ++ gs).lookup k = gs.lookup k := by
  induction fs with
  | nil => rfl
  | cons q rest ih =>
      cases q with
      | mk kq vq =>
          cases hbe : (k == kq) with
          | true => simp [List.lookup, hbe] at h
          | false =>
              simp only [List.lookup, hbe] at h
              simp [List.lookup, hbe, ih h]

/-- In the overwrite pass of `setField`, the key looks up to the new
value as long as it occurs at all. -/
theorem lookup_map_overwrite_self (fs : List (String × JSVal)) (k : String)
    (w : JSVal) (h : fs.any (fun p => p.1 == k) = true) :
    (fs.map (fun p => if p.1 == k then (k, w) else p)).lookup k = some w := by
  induction fs with
  | nil => cases h
  | cons q rest ih =>
      cases q with
      | mk kq vq =>
          cases hbe : (kq == k) with
          | true =>
              have h1 : (if ((kq, vq).1 == k) = true then (k, w) else (kq, vq)) =
                  (k, w) := by simp [hbe]
              rw [List.map_cons, h1]
              simp [List.lookup]
          | false =>
              have h1 : (if ((kq, vq).1 == k) = true then (k, w) else (kq, vq)) =
                  (kq, vq) := by simp [hbe]
              have hrest : rest.any (fun p => p.1 == k) = true := by
                simpa [List.any_cons, hbe] using h
              have hbk : (k == kq) = false := by
                rw [beq_eq_false_iff_ne] at hbe ⊢
                exact fun hc => hbe hc.symm
              rw [List.map_cons, h1]
              simp only [List.lookup, hbk]
              exact ih hrest

/-- `setField` makes its key look up to the written value. -/
theorem lookup_setField_self (fs : List (String × JSVal)) (k : String) (w : JSVal) :
    (setField fs k w).lookup k = some w := by
  unfold setField
  by_cases h : fs.any (fun p => p.1 == k) = true
  · rw [if_pos h]
    exact lookup_map_overwrite_self fs k w h
  · rw [if_neg h]
    have hnone : fs.lookup k = none := by
      cases hl : fs.lookup k with
      | none => rfl
      | some v => exact absurd (lookup_some_any fs k v hl) h
    rw [lookup_append_right_of_none fs _ k hnone]
    simp [List.lookup]

/-- A fold over pairs that never visit a key leaves that key's entry
unchanged. -/
theorem foldPairs_lookup_untouched {rec : Nat → List JSVal → MergeM (Nat × JSVal × List Nat)}
    (rid : Nat) (pairs : List (String × JSVal)) :
    ∀ (st st' : MergeSt) (k : String), k ∉ pairs.map Prod.fst →
    pairs.foldlM (assignStep rec rid) st = .ok st' →
    st'.2.1.lookup k = st.2.1.lookup k := by
  induction pairs with
  | nil => intro st st' k _ h; cases h; rfl
  | cons kv rest ih =>
      obtain ⟨k1, v1⟩ := kv
      intro st st' k hk h
      simp only [List.map_cons, List.mem_cons] at hk
      push_neg at hk
      rw [List.foldlM_cons] at h
      cases h1 : assignStep rec rid st (k1, v1) with
      | error e => rw [h1, exceptBind_err] at h; cases h
      | ok st1 =>
          rw [h1, exceptBind_ok] at h
          obtain ⟨w, hw⟩ := assignStep_fields_shape h1
          rw [ih st1 st' k hk.2 h, hw, lookup_setField_ne st.2.1 k1 w k hk.1]

/-- In a nodup-keyed fold, a key mapped to an array value ends up holding
a freshly allocated shallow copy of that array. -/
theorem foldPairs_arr_key {rec : Nat → List JSVal → MergeM (Nat × JSVal × List Nat)}
    (hrec : MergeRecInv rec) (rid : Nat) (pairs : List (String × JSVal)) :
    ∀ (st st' : MergeSt) (k : String) (i : Nat) (es : List JSVal),
    (pairs.map Prod.fst).Nodup → (k, .arr i es) ∈ pairs →
    pairs.foldlM (assignStep rec rid) st = .ok st' →
    ∃ j, st.1 ≤ j ∧ st'.2.1.lookup k = some (.arr j es) := by
  induction pairs with
  | nil => intro st st' k i es _ hmem; cases hmem
  | cons kv rest ih =>
      obtain ⟨k1, v1⟩ := kv
      intro st st' k i es hnd hmem h
      simp only [List.map_cons, List.nodup_cons] at hnd
      rw [List.foldlM_cons] at h
      cases h1 : assignStep rec rid st (k1, v1) with
      | error e => rw [h1, exceptBind_err] at h; cases h
      | ok st1 =>
          rw [h1, exceptBind_ok] at h
          rcases List.mem_cons.1 hmem with heq | hmem'
          · injection heq with heqk heqv
            subst heqk
            subst heqv
            rw [assignStep_eq_arr] at h1
            injection h1 with h1
            subst h1
            have huntouched := foldPairs_lookup_untouched rid rest
              (st.1 + 1, setField st.2.1 k (.arr st.1 es), st.2.2 ++ [rid])
              st' k hnd.1 h
            refine ⟨st.1, le_refl _, ?_⟩
            rw [huntouched]
            exact lookup_setField_self st.2.1 k (.arr st.1 es)
          · have hk1 : k ≠ k1 := by
              intro hc
              subst hc
              exact hnd.1 (List.mem_map_of_mem Prod.fst hmem')
            obtain ⟨hle, -⟩ := assignStep_inv hrec rid st st1 (k1, v1) h1
            obtain ⟨j, hj1, hj2⟩ := ih st1 st' k i es hnd.2 hmem' h
            exact ⟨j, le_trans hle hj1, hj2⟩

/-- C4 (amended): `merge(a, b)` on plain objects always returns a brand-new
mapping (fresh root identity) and never mutates either input — every
logged write targets an object allocated during the call, never an input
object.  On inputs without own `length` keys and with distinct keys,
every key-mapped array value from the winning source is shallow-copied
into the result under a fresh identity (so mutating the result's array
cannot alter the source's).  Idempotence holds only for well-formed
mappings (`goodCfg`): merging such a mapping with itself is
strip-identical to the mapping.  (The claim's unconditional idempotence
is refuted by `utils_merge_idempotence_counterexample`: an own `length`
key makes `utils.each` iterate the object as an array-like.) -/
theorem utils_merge_amended (fuel ctr aid bid : Nat)
    (afs bfs : List (String × JSVal)) (out : Nat × JSVal × List Nat)
    (hia : ∀ id ∈ oidList (.obj aid afs), id < ctr)
    (hib : ∀ id ∈ oidList (.obj bid bfs), id < ctr)
    (h : mergeFuel fuel ctr [.obj aid afs, .obj bid bfs] = .ok out) :
    (∃ fs, out.2.1 = .obj ctr fs) ∧
    (ctr ∉ oidList (.obj aid afs) ∧ ctr ∉ oidList (.obj bid bfs)) ∧
    (∀ id ∈ out.2.2, ctr ≤ id ∧ id ∉ oidList (.obj aid afs) ∧
      id ∉ oidList (.obj bid bfs)) ∧
    (afs.any (fun p => p.1 == "length") = false →
     bfs.any (fun p => p.1 == "length") = false →
     (afs.map Prod.fst).Nodup → (bfs.map Prod.fst).Nodup →
     (∀ k i es, bfs.lookup k = some (.arr i es) →
        ∃ j, lookupF out.2.1 k = some (.arr j es) ∧ ctr ≤ j ∧
          j ∉ oidList (.obj aid afs) ∧ j ∉ oidList (.obj bid bfs)) ∧
     (∀ k i es, bfs.lookup k = none → afs.lookup k = some (.arr i es) →
        ∃ j, lookupF out.2.1 k = some (.arr j es) ∧ ctr ≤ j ∧
          j ∉ oidList (.obj aid afs) ∧ j ∉ oidList (.obj bid bfs))) ∧
    (∀ (f2 c2 : Nat) (out2 : Nat × JSVal × List Nat),
      goodCfg (.obj aid afs) = true →
      mergeFuel f2 c2 [.obj aid afs, .obj aid afs] = .ok out2 →
      JSVal.strip out2.2.1 = JSVal.strip (.obj aid afs)) := by
  obtain ⟨hctr, hlog, fs0, hroot⟩ := mergeFuel_inv fuel ctr _ _ _ _ h
  refine ⟨⟨fs0, hroot⟩, ⟨fun hc => absurd (hia ctr hc) (by omega),
    fun hc => absurd (hib ctr hc) (by omega)⟩, ?_, ?_, ?_⟩
  · intro id hid
    obtain ⟨h1, h2⟩ := hlog id hid
    exact ⟨h1, fun hc => absurd (hia id hc) (by omega),
      fun hc => absurd (hib id hc) (by omega)⟩
  · intro hlena hlenb hnda hndb
    cases fuel with
    | zero => cases h
    | succ f =>
        have hrec : MergeRecInv (mergeFuel f) := mergeFuel_inv f
        obtain ⟨st1, st2, h1, h2, hout⟩ :=
          mergeBody_two (mergeFuel f) ctr (.obj aid afs) (.obj bid bfs) out h
        unfold eachAssignArg at h1 h2
        rw [eachSeq_goodObj aid afs hlena] at h1
        rw [eachSeq_goodObj bid bfs hlenb] at h2
        have hst1ctr : ctr + 1 ≤ st1.1 :=
          (foldPairs_inv hrec ctr afs _ _ h1).1
        have hlkout : ∀ k, lookupF out.2.1 k = st2.2.1.lookup k := by
          intro k
          rw [hout]
          rfl
        constructor
        · intro k i es hkb
          obtain ⟨j, hj1, hj2⟩ := foldPairs_arr_key hrec ctr bfs st1 st2 k i es
            hndb (mem_of_lookup_some bfs k _ hkb) h2
          have hjc : ctr ≤ j := by omega
          refine ⟨j, ?_, hjc, fun hc => absurd (hia j hc) (by omega),
            fun hc => absurd (hib j hc) (by omega)⟩
          rw [hlkout k]
          exact hj2
        · intro k i es hkb hka
          obtain ⟨j, hj1, hj2⟩ := foldPairs_arr_key hrec ctr afs
            ((ctr + 1, [], []) : MergeSt) st1 k i es
            hnda (mem_of_lookup_some afs k _ hka) h1
          have hnotb : k ∉ bfs.map Prod.fst := by
            intro hc
            obtain ⟨v, hv⟩ := lookup_isSome_of_mem_keys bfs k hc
            rw [hv] at hkb
            cases hkb
          have huntouched := foldPairs_lookup_untouched ctr bfs st1 st2 k hnotb h2
          have hjc : ctr ≤ j := by omega
          refine ⟨j, ?_, hjc, fun hc => absurd (hia j hc) (by omega),
            fun hc => absurd (hib j hc) (by omega)⟩
          rw [hlkout k, huntouched]
          exact hj2
  · intro f2 c2 out2 hgood h2
    exact (merge_strip_spec f2).2 c2 (.obj aid afs) (.obj aid afs) out2
      rfl rfl hgood rfl h2

/-- C4 counterexample: `merge` of the plain object `\x7blength: 0\x7d`
with itself is the empty mapping, not the input — `utils.each` sees the
own `length` key, treats the object as array-like, and iterates zero
indices — so "merging a mapping with itself yields a result equal to
that mapping" fails as stated. -/
theorem utils_merge_idempotence_counterexample :
    mergeFuel 3 10 [.obj 1 [("length", .num 0)], .obj 1 [("length", .num 0)]] =
      .ok (11, .obj 10 [], []) ∧
    JSVal.strip (.obj 10 []) ≠ JSVal.strip (.obj 1 [("length", .num 0)]) := by
  refine ⟨rfl, fun hc => ?_⟩
  simp [JSVal.strip, JSVal.stripFields] at hc

/-- First input of the merge witness: `\x7bx: [1], o: \x7by: 2\x7d\x7d`. -/
def mergeWitnessAfs : List (String × JSVal) :=
  [("x", .arr 1 [.num 1]), ("o", .obj 2 [("y", .num 2)])]

/-- Second input of the merge witness: `\x7bx: [9], z: 's'\x7d`. -/
def mergeWitnessBfs : List (String × JSVal) :=
  [("x", .arr 4 [.num 9]), ("z", .str "s")]

/-- Expected output of the merge witness run. -/
def mergeWitnessOut : Nat × JSVal × List Nat :=
  (15, .obj 10 [("x", .arr 14 [.num 9]), ("o", .obj 13 [("y", .num 2)]),
    ("z", .str "s")], [10, 13, 10, 10, 10])

/-- Witness for `utils_merge_amended` at a concrete pair of configs. -/
theorem utils_merge_amended_witness :
    (∃ fs, mergeWitnessOut.2.1 = .obj 10 fs) ∧
    (10 ∉ oidList (.obj 0 mergeWitnessAfs) ∧ 10 ∉ oidList (.obj 3 mergeWitnessBfs)) ∧
    (∀ id ∈ mergeWitnessOut.2.2, 10 ≤ id ∧ id ∉ oidList (.obj 0 mergeWitnessAfs) ∧
      id ∉ oidList (.obj 3 mergeWitnessBfs)) ∧
    (mergeWitnessAfs.any (fun p => p.1 == "length") = false →
     mergeWitnessBfs.any (fun p => p.1 == "length") = false →
     (mergeWitnessAfs.map Prod.fst).Nodup → (mergeWitnessBfs.map Prod.fst).Nodup →
     (∀ k i es, mergeWitnessBfs.lookup k = some (.arr i es) →
        ∃ j, lookupF mergeWitnessOut.2.1 k = some (.arr j es) ∧ 10 ≤ j ∧
          j ∉ oidList (.obj 0 mergeWitnessAfs) ∧ j ∉ oidList (.obj 3 mergeWitnessBfs)) ∧
     (∀ k i es, mergeWitnessBfs.lookup k = none →
        mergeWitnessAfs.lookup k = some (.arr i es) →
        ∃ j, lookupF mergeWitnessOut.2.1 k = some (.arr j es) ∧ 10 ≤ j ∧
          j ∉ oidList (.obj 0 mergeWitnessAfs) ∧ j ∉ oidList (.obj 3 mergeWitnessBfs))) ∧
    (∀ (f2 c2 : Nat) (out2 : Nat × JSVal × List Nat),
      goodCfg (.obj 0 mergeWitnessAfs) = true →
      mergeFuel f2 c2 [.obj 0 mergeWitnessAfs, .obj 0 mergeWitnessAfs] = .ok out2 →
      JSVal.strip out2.2.1 = JSVal.strip (.obj 0 mergeWitnessAfs)) :=
  utils_merge_amended 5 10 0 3 mergeWitnessAfs mergeWitnessBfs mergeWitnessOut
    (by decide) (by decide) (by rfl)

/-- A source that `utils.each` skips entirely: `null` (early return) or a
number, boolean, or function (non-array-like with no own enumerable
keys).  An `undefined` source is *not* skippable — it throws — and
strings and arrays are iterated. -/
def skippableSource : JSVal → Bool
  | .null => true
  | .num _ => true
  | .bool _ => true
  | .fn _ => true
  | _ => false

/-- `utils.each` visits nothing on a skippable source. -/
theorem eachSeq_skippable (s : JSVal) (h : skippableSource s = true) :
    eachSeq s = .ok [] := by
  cases s <;> simp_all [skippableSource] <;> rfl

/-- C9 (amended): `merge` tolerates `null` sources and skips
non-collection sources — inserting a `null`, number, boolean or function
source anywhere in the argument list leaves the result exactly as if
that source were absent.  (The claim's `undefined` case is refuted by
`utils_merge_undefined_counterexample`: `utils.each` only
strict-compares against `null`, so an `undefined` source reaches
`hasOwnProperty.call(undefined, 'length')`, which throws a
`TypeError`.) -/
theorem utils_merge_skips_non_collections (f ctr : Nat) (pre post : List JSVal)
    (s : JSVal) (hs : skippableSource s = true) :
    mergeFuel (f + 1) ctr (pre ++ s :: post) =
      mergeFuel (f + 1) ctr (pre ++ post) := by
  have hstep : ∀ st : MergeSt, eachAssignArg (mergeFuel f) ctr st s = .ok st := by
    intro st
    unfold eachAssignArg
    rw [eachSeq_skippable s hs]
    rfl
  have key : (pre ++ s :: post).foldlM (eachAssignArg (mergeFuel f) ctr)
      ((ctr + 1, [], []) : MergeSt) =
      (pre ++ post).foldlM (eachAssignArg (mergeFuel f) ctr)
      ((ctr + 1, [], []) : MergeSt) := by
    rw [List.foldlM_append, List.foldlM_append]
    cases hp : pre.foldlM (eachAssignArg (mergeFuel f) ctr)
        ((ctr + 1, [], []) : MergeSt) with
    | error e => rw [exceptBind_err, exceptBind_err]
    | ok st1 => rw [exceptBind_ok, exceptBind_ok, List.foldlM_cons, hstep st1,
        exceptBind_ok]
  show mergeBody (mergeFuel f) ctr (pre ++ s :: post) =
    mergeBody (mergeFuel f) ctr (pre ++ post)
  unfold mergeBody
  rw [key]

/-- Witness for `utils_merge_skips_non_collections`: a `null` source in
second position is a no-op. -/
theorem utils_merge_skips_non_collections_witness :
    mergeFuel 2 10 [JSVal.obj 0 [("a", .num 1)], JSVal.null] =
      mergeFuel 2 10 [JSVal.obj 0 [("a", .num 1)]] :=
  utils_merge_skips_non_collections 1 10 [JSVal.obj 0 [("a", .num 1)]] [] .null rfl

/-- C9 counterexample: an explicitly-`undefined` source is not skipped —
the run throws a `TypeError` (`hasOwnProperty.call(undefined, 'length')`)
instead of returning the same result as without that source. -/
theorem utils_merge_undefined_counterexample :
    mergeFuel 2 10 [JSVal.obj 0 [("a", .num 1)], JSVal.undef] =
      .error (.thrown .typeError) ∧
    mergeFuel 2 10 [JSVal.obj 0 [("a", .num 1)]] =
      .ok (11, .obj 10 [("a", .num 1)], [10]) :=
  ⟨rfl, rfl⟩

/-! The task bridge (`adapterTaskSettle`, source lines 714-750): walks the
user-supplied task-spec mapping with `utils.each`; a function value under
a key listed in `legalCallbackTasks` is registered on the host task
handle via `requestTask[key](bridge)`, and the bridge, when fired,
invokes the user handler with `(payload, requestTask)` (then echoes
diagnostics — console-only, not modelled); any *other* function value —
the control keys `abort`/`close`/`send`, but also any unknown key, since
the declared `legalTasks` list is never consulted — is invoked at once
with the task handle as sole argument.  Bindings are recorded as a list:
`onEvent` for registrations, `callNow` for immediate synchronous
invocations, in visit order. -/

/-- A binding produced by the task bridge. -/
inductive TaskBind where
  | onEvent (key : String) (fid : Nat) : TaskBind
  | callNow (key : String) (fid : Nat) : TaskBind
  deriving DecidableEq

/-- `legalTasks` (source line 731).  Declared by the source but never
consulted by `adapterTaskSettle`'s dispatch — kept here to document that
unknown keys fall into the same immediate-invocation branch. -/
def legalTasks : List String := ["abort", "close", "send"]

/-- `legalCallbackTasks` (source line 736). -/
def legalCallbackTasks : List String :=
  ["onProgressUpdate", "offProgressUpdate", "onHeadersReceived",
   "offHeadersReceived", "onChunkReceived", "offChunkReceived",
   "onOpen", "onMessage", "onError", "onClose"]

/-- One `setRequestTask(value, key)` step (source lines 738-749):
function values under callback-style names are registered, any other
function value is invoked immediately with the task handle, non-function
values are skipped. -/
def taskBindStep (acc : List TaskBind) (kv : String × JSVal) : List TaskBind :=
  match kv.2 with
  | .fn fid =>
      if kv.1 ∈ legalCallbackTasks then acc ++ [.onEvent kv.1 fid]
      else acc ++ [.callNow kv.1 fid]
  | _ => acc

/-- `adapterTaskSettle(requestTask, configTask, config)`: no-op on a falsy
task handle; a non-plain-object spec is replaced by `\x7b\x7d`; then the
spec is walked with `utils.each`. -/
def adapterTaskSettle (requestTask : JSVal) (configTask : JSVal) :
    Except JsErr (List TaskBind) :=
  if ¬ truthy requestTask then .ok []
  else
    let ct := if isPlainObject configTask then configTask else .obj 0 []
    match eachSeq ct with
    | .error e => .error e
    | .ok pairs => .ok (pairs.foldl taskBindStep [])

/-- The binding (if any) a single spec entry contributes. -/
def taskBindOf (kv : String × JSVal) : Option TaskBind :=
  match kv.2 with
  | .fn fid =>
      some (if kv.1 ∈ legalCallbackTasks then .onEvent kv.1 fid
        else .callNow kv.1 fid)
  | _ => none

/-- The key a binding is attached to. -/
def bindKey : TaskBind → String
  | .onEvent k _ => k
  | .callNow k _ => k

/-- Firing a host event: models `requestTaskCallback` (source lines
741-744) — the bridge registered for `key`, when the host fires it with
`payload`, invokes the user handler (identified by its `fid`) with the
payload and the task handle. -/
def fireTaskEvent (binds : List TaskBind) (task : JSVal) (key : String)
    (payload : JSVal) : Option (Nat × JSVal × JSVal) :=
  binds.findSome? (fun b => match b with
    | .onEvent k fid => if k = key then some (fid, payload, task) else none
    | .callNow _ _ => none)

/-- The bridge fold is the concatenation of per-entry bindings. -/
theorem foldl_taskBindStep_eq (pairs : List (String × JSVal)) :
    ∀ acc, pairs.foldl taskBindStep acc = acc ++ pairs.filterMap taskBindOf := by
  induction pairs with
  | nil => intro acc; simp
  | cons kv rest ih =>
      intro acc
      obtain ⟨k, v⟩ := kv
      cases v with
      | fn fid =>
          by_cases hc : k ∈ legalCallbackTasks
          · simp [List.foldl_cons, taskBindStep, taskBindOf, hc, ih]
          · simp [List.foldl_cons, taskBindStep, taskBindOf, hc, ih]
      | undef | null | bool _ | num _ | str _ | arr _ _ | obj _ _ =>
          simp [List.foldl_cons, taskBindStep, taskBindOf, ih]

/-- Every binding's key is a key of the spec. -/
theorem bindKey_mem (fs : List (String × JSVal)) (b : TaskBind)
    (h : b ∈ fs.filterMap taskBindOf) : bindKey b ∈ fs.map Prod.fst := by
  induction fs with
  | nil => cases h
  | cons kv rest ih =>
      obtain ⟨k, v⟩ := kv
      cases v with
      | fn fid =>
          simp only [List.filterMap_cons, taskBindOf] at h
          rcases List.mem_cons.1 h with h1 | h1
          · subst h1
            by_cases hc : k ∈ legalCallbackTasks <;>
              simp [hc, bindKey]
          · exact List.mem_cons_of_mem _ (ih h1)
      | undef | null | bool _ | num _ | str _ | arr _ _ | obj _ _ =>
          simp only [List.filterMap_cons, taskBindOf] at h
          exact List.mem_cons_of_mem _ (ih h)

/-- A registered callback key fires its own handler with the payload and
the task handle. -/
theorem fireTaskEvent_filterMap (fs : List (String × JSVal)) (task : JSVal)
    (k : String) (fid : Nat) (payload : JSVal)
    (hnd : (fs.map Prod.fst).Nodup) (hmem : (k, .fn fid) ∈ fs)
    (hc : k ∈ legalCallbackTasks) :
    fireTaskEvent (fs.filterMap taskBindOf) task k payload =
      some (fid, payload, task) := by
  induction fs with
  | nil => cases hmem
  | cons kv rest ih =>
      obtain ⟨k1, v1⟩ := kv
      simp only [List.map_cons, List.nodup_cons] at hnd
      rcases List.mem_cons.1 hmem with h1 | h1
      · injection h1 with h1a h1b
        subst h1a
        subst h1b
        simp [List.filterMap_cons, taskBindOf, hc, fireTaskEvent]
      · have hk1 : k ≠ k1 := by
          intro hcne
          subst hcne
          exact hnd.1 (List.mem_map_of_mem Prod.fst h1)
        have hne : ¬ k1 = k := fun hx => hk1 hx.symm
        have ih' := ih hnd.2 h1
        cases v1 with
        | fn fid1 =>
            by_cases hc1 : k1 ∈ legalCallbackTasks
            · simp only [List.filterMap_cons, taskBindOf, hc1, if_true]
              unfold fireTaskEvent at ih' ⊢
              rw [List.findSome?_cons]
              simp only [hne, if_false]
              exact ih'
            · simp only [List.filterMap_cons, taskBindOf, hc1, if_false]
              unfold fireTaskEvent at ih' ⊢
              rw [List.findSome?_cons]
              exact ih'
        | undef | null | bool _ | num _ | str _ | arr _ _ | obj _ _ =>
            simp only [List.filterMap_cons, taskBindOf]
            exact ih hnd.2 h1

/-- Inversion: only a function entry under its own key registers an
`onEvent` binding. -/
theorem taskBindOf_onEvent_inv (k' : String) (v' : JSVal) (k : String) (fid : Nat)
    (h : taskBindOf (k', v') = some (.onEvent k fid)) : k' = k ∧ v' = .fn fid := by
  cases v' with
  | fn fid' =>
      by_cases hc : k' ∈ legalCallbackTasks
      · simp only [taskBindOf, hc, if_true, Option.some.injEq] at h
        injection h with h1 h2
        exact ⟨h1, by rw [h2]⟩
      · simp only [taskBindOf, hc, if_false] at h
        cases h
  | undef | null | bool _ | num _ | str _ | arr _ _ | obj _ _ =>
      simp [taskBindOf] at h

/-- Inversion: only a function entry under its own key produces a
`callNow` binding. -/
theorem taskBindOf_callNow_inv (k' : String) (v' : JSVal) (k : String) (fid : Nat)
    (h : taskBindOf (k', v') = some (.callNow k fid)) : k' = k ∧ v' = .fn fid := by
  cases v' with
  | fn fid' =>
      by_cases hc : k' ∈ legalCallbackTasks
      · simp only [taskBindOf, hc, if_true] at h
        cases h
      · simp only [taskBindOf, hc, if_false, Option.some.injEq] at h
        injection h with h1 h2
        exact ⟨h1, by rw [h2]⟩
  | undef | null | bool _ | num _ | str _ | arr _ _ | obj _ _ =>
      simp [taskBindOf] at h

/-- C8 (amended): over a truthy task handle and a plain task-spec mapping
without an own `length` key, each function-valued entry whose key is one
of the callback-style event names is registered on the task handle, and
firing that event invokes the user handler with the event payload and
the task handle; every *other* function-valued entry — the control keys
`abort`/`close`/`send` but also any unknown key, since the source never
consults its `legalTasks` list — is invoked immediately and synchronously
with the task handle as sole argument; non-function values produce no
binding at all; a falsy task handle produces nothing.  (The claim's
"unknown keys are ignored" is refuted by
`adapterTaskSettle_counterexample`, which also shows a spec with an own
`length` key being iterated as an array-like, skipping its handlers.) -/
theorem adapterTaskSettle_amended (task : JSVal) (oid : Nat)
    (fs : List (String × JSVal))
    (hlen : fs.any (fun p => p.1 == "length") = false)
    (hnd : (fs.map Prod.fst).Nodup) :
    (truthy task = false → adapterTaskSettle task (.obj oid fs) = .ok []) ∧
    (truthy task = true →
      ∃ binds, adapterTaskSettle task (.obj oid fs) = .ok binds ∧
        (∀ k fid, (k, JSVal.fn fid) ∈ fs → k ∈ legalCallbackTasks →
           TaskBind.onEvent k fid ∈ binds ∧
           ∀ payload, fireTaskEvent binds task k payload =
             some (fid, payload, task)) ∧
        (∀ k fid, (k, JSVal.fn fid) ∈ fs → k ∉ legalCallbackTasks →
           TaskBind.callNow k fid ∈ binds) ∧
        (∀ k v, (k, v) ∈ fs → isFunction v = false →
           ∀ fid, TaskBind.onEvent k fid ∉ binds ∧
             TaskBind.callNow k fid ∉ binds)) := by
  constructor
  · intro htask
    simp [adapterTaskSettle, htask]
  · intro htask
    refine ⟨fs.filterMap taskBindOf, ?_, ?_, ?_, ?_⟩
    · unfold adapterTaskSettle
      rw [if_neg (by simp [htask])]
      simp only [isPlainObject, if_true]
      rw [eachSeq_goodObj oid fs hlen]
      show Except.ok (List.foldl taskBindStep [] fs) = _
      rw [foldl_taskBindStep_eq fs [], List.nil_append]
    · intro k fid hmem hc
      refine ⟨List.mem_filterMap.2 ⟨(k, .fn fid), hmem, by
        simp [taskBindOf, hc]⟩, ?_⟩
      intro payload
      exact fireTaskEvent_filterMap fs task k fid payload hnd hmem hc
    · intro k fid hmem hc
      exact List.mem_filterMap.2 ⟨(k, .fn fid), hmem, by simp [taskBindOf, hc]⟩
    · intro k v hmem hfn fid
      constructor
      · intro hb
        obtain ⟨⟨k', v'⟩, hmem', hbo⟩ := List.mem_filterMap.1 hb
        obtain ⟨hk', hv'⟩ := taskBindOf_onEvent_inv k' v' k fid hbo
        subst hv'
        rw [hk'] at hmem'
        have h1 := lookup_of_mem_nodup fs k _ hmem hnd
        have h2 := lookup_of_mem_nodup fs k _ hmem' hnd
        rw [h1] at h2
        injection h2 with h2
        rw [h2] at hfn
        simp [isFunction] at hfn
      · intro hb
        obtain ⟨⟨k', v'⟩, hmem', hbo⟩ := List.mem_filterMap.1 hb
        obtain ⟨hk', hv'⟩ := taskBindOf_callNow_inv k' v' k fid hbo
        subst hv'
        rw [hk'] at hmem'
        have h1 := lookup_of_mem_nodup fs k _ hmem hnd
        have h2 := lookup_of_mem_nodup fs k _ hmem' hnd
        rw [h1] at h2
        injection h2 with h2
        rw [h2] at hfn
        simp [isFunction] at hfn

/-- C8 counterexample: the unknown key `foo` is *not* ignored — its
function value is invoked immediately with the task handle (the
`legalTasks` whitelist is never consulted); and a task spec owning a
`length` key is iterated as an array-like, so its `onOpen` handler is
never registered. -/
theorem adapterTaskSettle_counterexample :
    adapterTaskSettle (.obj 9 []) (.obj 1 [("foo", .fn 5)]) =
      .ok [.callNow "foo" 5] ∧
    adapterTaskSettle (.obj 9 []) (.obj 2 [("length", .num 0), ("onOpen", .fn 6)]) =
      .ok [] :=
  ⟨rfl, rfl⟩

/-- Witness for `adapterTaskSettle_amended` at a concrete spec holding a
callback key, a control key and a non-function entry. -/
theorem adapterTaskSettle_amended_witness :
    (truthy (JSVal.obj 9 []) = false →
      adapterTaskSettle (JSVal.obj 9 [])
        (.obj 7 [("onOpen", .fn 1), ("abort", .fn 2), ("xyz", .num 3)]) = .ok []) ∧
    (truthy (JSVal.obj 9 []) = true →
      ∃ binds, adapterTaskSettle (JSVal.obj 9 [])
          (.obj 7 [("onOpen", .fn 1), ("abort", .fn 2), ("xyz", .num 3)]) = .ok binds ∧
        (∀ k fid, (k, JSVal.fn fid) ∈
            [("onOpen", JSVal.fn 1), ("abort", .fn 2), ("xyz", .num 3)] →
           k ∈ legalCallbackTasks →
           TaskBind.onEvent k fid ∈ binds ∧
           ∀ payload, fireTaskEvent binds (JSVal.obj 9 []) k payload =
             some (fid, payload, JSVal.obj 9 [])) ∧
        (∀ k fid, (k, JSVal.fn fid) ∈
            [("onOpen", JSVal.fn 1), ("abort", .fn 2), ("xyz", .num 3)] →
           k ∉ legalCallbackTasks →
           TaskBind.callNow k fid ∈ binds) ∧
        (∀ k v, (k, v) ∈
            [("onOpen", JSVal.fn 1), ("abort", .fn 2), ("xyz", .num 3)] →
           isFunction v = false →
           ∀ fid, TaskBind.onEvent k fid ∉ binds ∧
             TaskBind.callNow k fid ∉ binds)) :=
  adapterTaskSettle_amended (JSVal.obj 9 []) 7
    [("onOpen", .fn 1), ("abort", .fn 2), ("xyz", .num 3)] (by decide) (by decide)

/-- Witness for `getDefaultAdapter_classification` at a concrete upload-like
config. -/
theorem getDefaultAdapter_classification_witness :
    isPlainObject (JSVal.obj 0 [("name", .str "n"), ("filePath", .str "f")]) = true ∧
    (getDefaultAdapter (JSVal.obj 0 [("name", .str "n"), ("filePath", .str "f")]) =
        .ok .uploadFile ↔
      truthy (getProp (JSVal.obj 0 [("name", .str "n"), ("filePath", .str "f")]) "name") = true ∧
      truthy (getProp (JSVal.obj 0 [("name", .str "n"), ("filePath", .str "f")]) "filePath") = true) :=
  ⟨rfl, (getDefaultAdapter_classification
    (JSVal.obj 0 [("name", .str "n"), ("filePath", .str "f")]) (by decide)).1⟩

/-- An `Axios` object as built by `new Axios(defaultConfig)` (source
lines 995-1006): an allocation identity plus the stored default config
(`this.defaults = defaultConfig`). -/
structure AxiosInst where
  iid : Nat
  defaults : JSVal

/-- Module-level instantiation state: the allocation counter and the
`ProxyAxios` closure's captured `instance` variable (source line 1249,
`let instance = null`). -/
structure InstSt where
  ctr : Nat
  cached : Option AxiosInst

/-- `new Axios(cfg)`: allocates a fresh instance storing `cfg`; the
singleton cache is untouched. -/
def newAxios (st : InstSt) (cfg : JSVal) : InstSt × AxiosInst :=
  (⟨st.ctr + 1, st.cached⟩, ⟨st.ctr, cfg⟩)

/-- `ProxyAxios` (source lines 1248-1256): `new singletonAxios(cfg)`
returns the closed-over `instance` if set, otherwise constructs
`new Axios(cfg)`, caches it, and returns it.  (A JS constructor that
returns an object yields that object, so `new ProxyAxios(cfg)` really
does hand back the cached instance.) -/
def proxyAxios (st : InstSt) (cfg : JSVal) : InstSt × AxiosInst :=
  match st.cached with
  | some i => (st, i)
  | none =>
      let r := newAxios st cfg
      (⟨r.1.ctr, some r.2⟩, r.2)

/-- `createInstance` (source lines 1267-1284): throws on a falsy config,
then constructs via `ProxyAxios` when `defaultConfig.useSingleton` is
truthy and via plain `Axios` otherwise.  (The conditional
`instance.create = ...` assignment adds a method and changes neither the
identity nor the stored defaults; the method itself is modelled by
`instanceCreate` below.) -/
def createInstance (st : InstSt) (cfg : JSVal) :
    Except LibErr (InstSt × AxiosInst) :=
  if truthy cfg = false then .error .nonConfig
  else if truthy (getProp cfg "useSingleton") = true then .ok (proxyAxios st cfg)
  else .ok (newAxios st cfg)

/-- JavaScript property assignment `v[k] = w` as an expression on the
value: a TypeError on `null`/`undefined` (ToObject failure), an in-place
field update on an object (same identity), and a silent no-op on other
primitives. -/
def setProp (v : JSVal) (k : String) (w : JSVal) : Except JsErr JSVal :=
  match v with
  | .undef => .error .typeError
  | .null => .error .typeError
  | .obj oid fs => .ok (.obj oid (setField fs k w))
  | other => .ok other

/-- `instance.create` (source lines 1275-1281):
`instanceConfig.useSingleton = false` mutates the caller's argument, then
`createInstance(helpers.mergeConfig(defaultConfig, instanceConfig))`.
Returns the (mutated) argument alongside the call's outcome. -/
def instanceCreate (fuel : Nat) (st : InstSt) (defaultConfig overrides : JSVal) :
    JSVal × MergeM (Except LibErr (InstSt × AxiosInst)) :=
  match setProp overrides "useSingleton" (.bool false) with
  | .error e => (overrides, .error (.thrown e))
  | .ok mutated =>
      (mutated,
        match mergeConfig fuel st.ctr defaultConfig mutated with
        | .error e => .error e
        | .ok r => .ok (createInstance ⟨r.1, st.cached⟩ r.2.1))

/-- C5: with `useSingleton` enabled, the first `createInstance` call
constructs the instance from its config and caches it in the
`ProxyAxios` closure, and every later singleton call — whatever its
(truthy) config says — returns that identical cached instance with the
original defaults, leaving the state unchanged: first-writer-wins, the
later config is discarded. -/
theorem singleton_first_writer_wins (ctr : Nat) (cfg1 : JSVal)
    (h1 : truthy cfg1 = true)
    (hs1 : truthy (getProp cfg1 "useSingleton") = true) :
    ∃ st1 i1,
      createInstance ⟨ctr, none⟩ cfg1 = .ok (st1, i1) ∧
      i1.defaults = cfg1 ∧ i1.iid = ctr ∧ st1.cached = some i1 ∧
      ∀ cfg2, truthy cfg2 = true →
        truthy (getProp cfg2 "useSingleton") = true →
        createInstance st1 cfg2 = .ok (st1, i1) := by
  refine ⟨⟨ctr + 1, some ⟨ctr, cfg1⟩⟩, ⟨ctr, cfg1⟩, ?_, rfl, rfl, rfl, ?_⟩
  · unfold createInstance
    rw [if_neg (by simp [h1]), if_pos hs1]
    rfl
  · intro cfg2 h2 hs2
    unfold createInstance
    rw [if_neg (by simp [h2]), if_pos hs2]
    rfl

/-- Witness for `singleton_first_writer_wins` at a concrete singleton
config. -/
theorem singleton_first_writer_wins_witness :
    ∃ st1 i1,
      createInstance ⟨0, none⟩ (.obj 1 [("useSingleton", .bool true)]) =
        .ok (st1, i1) ∧
      i1.defaults = .obj 1 [("useSingleton", .bool true)] ∧ i1.iid = 0 ∧
      st1.cached = some i1 ∧
      ∀ cfg2, truthy cfg2 = true →
        truthy (getProp cfg2 "useSingleton") = true →
        createInstance st1 cfg2 = .ok (st1, i1) :=
  singleton_first_writer_wins 0 (.obj 1 [("useSingleton", .bool true)])
    (by decide) (by decide)

/-- C10: `instance.create(overrides)` writes `useSingleton = false`
directly onto the caller's overrides object before merging: the returned
overrides value keeps the argument's identity (same `oid`) but now reads
`useSingleton` as `false`, all other keys are untouched, and the config
passed on to `mergeConfig`/`createInstance` is that mutated object — even
though `merge` itself never mutates its inputs. -/
theorem instance_create_mutates_overrides (fuel : Nat) (st : InstSt)
    (dc : JSVal) (oid : Nat) (fs : List (String × JSVal)) :
    (instanceCreate fuel st dc (.obj oid fs)).1 =
      .obj oid (setField fs "useSingleton" (.bool false)) ∧
    getProp (instanceCreate fuel st dc (.obj oid fs)).1 "useSingleton" =
      .bool false ∧
    (∀ k, k ≠ "useSingleton" →
      getProp (instanceCreate fuel st dc (.obj oid fs)).1 k =
        getProp (.obj oid fs) k) ∧
    (instanceCreate fuel st dc (.obj oid fs)).2 =
      (match mergeConfig fuel st.ctr dc
          (.obj oid (setField fs "useSingleton" (.bool false))) with
       | .error e => .error e
       | .ok r => .ok (createInstance ⟨r.1, st.cached⟩ r.2.1)) := by
  have h0 : (instanceCreate fuel st dc (.obj oid fs)).1 =
      .obj oid (setField fs "useSingleton" (.bool false)) := rfl
  refine ⟨h0, ?_, ?_, rfl⟩
  · rw [h0]
    simp [getProp, lookup_setField_self]
  · intro k hk
    rw [h0]
    simp only [getProp]
    rw [lookup_setField_ne fs "useSingleton" (.bool false) k hk]

/-- Witness for `instance_create_mutates_overrides` at a concrete
overrides object carrying `useSingleton: true`. -/
theorem instance_create_mutates_overrides_witness :
    (instanceCreate 4 ⟨20, none⟩ (.obj 0 [("a", .num 1)])
          (.obj 1 [("useSingleton", .bool true), ("b", .num 2)])).1 =
      .obj 1 (setField [("useSingleton", .bool true), ("b", .num 2)]
        "useSingleton" (.bool false)) ∧
    getProp (instanceCreate 4 ⟨20, none⟩ (.obj 0 [("a", .num 1)])
          (.obj 1 [("useSingleton", .bool true), ("b", .num 2)])).1 "useSingleton" =
      .bool false ∧
    (∀ k, k ≠ "useSingleton" →
      getProp (instanceCreate 4 ⟨20, none⟩ (.obj 0 [("a", .num 1)])
          (.obj 1 [("useSingleton", .bool true), ("b", .num 2)])).1 k =
        getProp (.obj 1 [("useSingleton", .bool true), ("b", .num 2)]) k) ∧
    (instanceCreate 4 ⟨20, none⟩ (.obj 0 [("a", .num 1)])
          (.obj 1 [("useSingleton", .bool true), ("b", .num 2)])).2 =
      (match mergeConfig 4 (20 : Nat) (.obj 0 [("a", .num 1)])
          (.obj 1 (setField [("useSingleton", .bool true), ("b", .num 2)]
            "useSingleton" (.bool false))) with
       | .error e => .error e
       | .ok r => .ok (createInstance ⟨r.1, none⟩ r.2.1)) :=
  instance_create_mutates_overrides 4 ⟨20, none⟩ (.obj 0 [("a", .num 1)]) 1
    [("useSingleton", .bool true), ("b", .num 2)]

end WeappAxios
